import Mathlib

/-!
Lexical scanner of `common_c.c`.

A shallow embedding of the four string functions of
`shared/libebm/common_c/common_c.c`:
`SkipWhitespace`, `ConvertStringToFloat`, `IsStringEqualsCaseInsensitive` and
`IsStringEqualsForgiving`, followed by theorems about them.

Memory model.

* A `char` is an `Int`.  The functions only compare characters with the
  constants `0x20`, `0x9`, `0xd`, `'A'` (65), `'Z'` (90), `'\0'` and with each
  other, and add `'a' - 'A'` (32) to a value already known to lie in `65..90`,
  so nothing depends on the width or signedness of `char` and no addition can
  wrap around.
* A buffer is a `List Int`.  A `const char *` into a buffer is the offset
  `s : Nat` of the byte it designates.  Inside a loop the pointer is carried
  together with the bytes that lie after it in its buffer: `++s; c = *s;`
  increments the offset and takes the first of those bytes.  Reading when no
  byte is left is a read outside the buffer and ends the run with
  `Fault.outOfBounds`.
* The C string with text `t` is the buffer `cstr t = t ++ [0]`.
-/

namespace EbmCommon

/-- Ways in which a run can stop without returning. -/
inductive Fault where
  /-- Read through a pointer that designates no byte of its buffer. -/
  | outOfBounds
  /-- An `EBM_ASSERT` whose condition is false, in a build that checks them. -/
  | assertion
deriving DecidableEq, Repr

/-- Outcome of a call: the returned value, or the fault that stopped it. -/
inductive Result (α : Type) where
  | ok (a : α)
  | fault (f : Fault)
deriving DecidableEq, Repr

/-- Sequencing of calls: a fault of the first call is the fault of the whole. -/
def Result.bind {α β : Type} : Result α → (α → Result β) → Result β
  | .ok a, f => f a
  | .fault e, _ => .fault e

/-- Apply a function to the returned value. -/
def Result.map {α β : Type} (f : α → β) : Result α → Result β
  | .ok a => .ok (f a)
  | .fault e => .fault e

/-- The buffer of the C string with text `t`: the text and its terminator. -/
def cstr (t : List Int) : List Int := t ++ [0]

/-- Loop of `SkipWhitespace` (lines 19-23).  `s` is the pointer, `oneChar` the
byte last read through it and `after` the bytes of the buffer behind `s`. -/
def SkipWhitespace.loop : (after : List Int) → (s : Nat) → (oneChar : Int) → Result Nat
  | after, s, oneChar =>
    if 0x20 = oneChar ∨ (0x9 ≤ oneChar ∧ oneChar ≤ 0xd) then
      -- ++s; oneChar = *s;
      match after with
      | [] => .fault .outOfBounds
      | c :: rest => SkipWhitespace.loop rest (s + 1) c
    else
      .ok s

/-- Function `SkipWhitespace(s)` (lines 17-25) on the buffer `mem`. -/
def SkipWhitespace (mem : List Int) (s : Nat) : Result Nat :=
  -- char oneChar = *s;
  match mem.drop s with
  | [] => .fault .outOfBounds
  | oneChar :: after => SkipWhitespace.loop after s oneChar

/-- Function `ConvertStringToFloat(s, pResultOut)` (lines 27-49).

`strtod` belongs to the C library and is a parameter: from the buffer and the
start pointer it gives the converted value and what it stores in `sNext`
(`none` for a null pointer).  The value type `α` stands for `double`.
`pResultOut` is the content of the output cell before the call; the result
pairs the returned pointer (`none` for `NULL`) with the content of the cell
after the call.  The two `EBM_ASSERT`s (lines 31-32) require `s` and
`pResultOut` to be non-null, which holds of an offset and of a cell. -/
def ConvertStringToFloat {α : Type} (strtod : List Int → Nat → α × Option Nat)
    (mem : List Int) (s : Nat) (pResultOut : α) : Result (Option Nat × α) :=
  match strtod mem s with
  | (ret, sNext) =>
    match sNext with
    | none => .ok (none, pResultOut)
    | some e =>
      if s = e then .ok (none, pResultOut)
      else
        -- *pResultOut = ret; return SkipWhitespace(sNext);
        match SkipWhitespace mem e with
        | .ok r => .ok (some r, ret)
        | .fault f => .fault f

/-- Second loop of `IsStringEqualsCaseInsensitive` (lines 76-81): skip the
white space behind the matched label and return the pointer. -/
def IsStringEqualsCaseInsensitive.skip :
    (mainAfter : List Int) → (sMain : Nat) → (mainChar : Int) → Result (Option Nat)
  | mainAfter, sMain, mainChar =>
    if 0x20 = mainChar ∨ (0x9 ≤ mainChar ∧ mainChar ≤ 0xd) then
      -- ++sMain; mainChar = *sMain;
      match mainAfter with
      | [] => .fault .outOfBounds
      | c :: rest => IsStringEqualsCaseInsensitive.skip rest (sMain + 1) c
    else
      .ok (some sMain)

/-- First loop of `IsStringEqualsCaseInsensitive` (lines 58-75) and what
follows it.  `labelAfter` and `mainAfter` are the bytes behind `sLabel` and
`sMain`; `none` is the `NULL` of line 69. -/
def IsStringEqualsCaseInsensitive.compare :
    (labelAfter mainAfter : List Int) → (sMain : Nat) → (mainChar labelChar : Int) →
      Result (Option Nat)
  | labelAfter, mainAfter, sMain, mainChar, labelChar =>
    if 0 ≠ labelChar then
      let mainFolded := if 65 ≤ mainChar ∧ mainChar ≤ 90 then mainChar + (97 - 65) else mainChar
      let labelFolded :=
        if 65 ≤ labelChar ∧ labelChar ≤ 90 then labelChar + (97 - 65) else labelChar
      if mainFolded ≠ labelFolded then
        .ok none
      else
        -- ++sMain; ++sLabel; mainChar = *sMain; labelChar = *sLabel;
        match labelAfter, mainAfter with
        | l :: labelRest, m :: mainRest =>
          IsStringEqualsCaseInsensitive.compare labelRest mainRest (sMain + 1) m l
        | _, _ => .fault .outOfBounds
    else
      IsStringEqualsCaseInsensitive.skip mainAfter sMain mainChar

/-- Function `IsStringEqualsCaseInsensitive(sMain, sLabel)` (lines 51-82).

`EBM_ASSERT` is defined in `logging.h`, outside the sources at hand, and is
taken as a build parameter: with `checked = true` a false assertion stops the
run (`Fault.assertion`), with `checked = false` the assertion expands to
nothing. -/
def IsStringEqualsCaseInsensitive (checked : Bool) (main : List Int) (sMain : Nat)
    (label : List Int) (sLabel : Nat) : Result (Option Nat) :=
  -- char mainChar = *sMain;
  match main.drop sMain with
  | [] => .fault .outOfBounds
  | mainChar :: mainAfter =>
    if checked = true ∧ ¬ (0x20 ≠ mainChar ∧ (mainChar < 0x9 ∨ 0xd < mainChar)) then
      .fault .assertion
    else
      -- char labelChar = *sLabel;
      match label.drop sLabel with
      | [] => .fault .outOfBounds
      | labelChar :: labelAfter =>
        IsStringEqualsCaseInsensitive.compare labelAfter mainAfter sMain mainChar labelChar

/-- Function `IsStringEqualsForgiving(sMain, sLabel)` (lines 84-90); `BoolEbm`
is `Bool`, with `EBM_TRUE = true` and `EBM_FALSE = false`. -/
def IsStringEqualsForgiving (checked : Bool) (main : List Int) (sMain : Nat)
    (label : List Int) (sLabel : Nat) : Result Bool :=
  match IsStringEqualsCaseInsensitive checked main sMain label sLabel with
  | .fault f => .fault f
  | .ok none => .ok false
  | .ok (some p) =>
    match main.drop p with
    | [] => .fault .outOfBounds
    | c :: _ => if 0 ≠ c then .ok false else .ok true

/-! ## Vocabulary of the statements -/

/-- The white-space class of the scanner: space, tab, LF, VT, FF, CR. -/
def IsSpace (c : Int) : Prop :=
  c = 0x20 ∨ c = 0x09 ∨ c = 0x0A ∨ c = 0x0B ∨ c = 0x0C ∨ c = 0x0D

instance : DecidablePred IsSpace := fun c => by unfold IsSpace; infer_instance

/-- The text holds no terminator. -/
def NulFree (t : List Int) : Prop := ∀ c ∈ t, c ≠ 0

instance : DecidablePred NulFree := fun t => by unfold NulFree; infer_instance

/-- ASCII case folding: `'A'..'Z'` to `'a'..'z'`, every other value unchanged. -/
def foldCase (c : Int) : Int := if 65 ≤ c ∧ c ≤ 90 then c + 32 else c

/-- One character is the other up to the case of an ASCII letter. -/
def CaseFlip (a b : Int) : Prop :=
  a = b ∨ (65 ≤ a ∧ a ≤ 90 ∧ b = a + 32) ∨ (65 ≤ b ∧ b ≤ 90 ∧ a = b + 32)

instance : ∀ a b, Decidable (CaseFlip a b) := fun a b => by unfold CaseFlip; infer_instance

/-- Text `a` is text `b` with the case of some ASCII letters changed. -/
def CaseVariant (a b : List Int) : Prop := List.Forall₂ CaseFlip a b

/-- The longest leading run of white space of a text. -/
def leadingSpace (t : List Int) : List Int := t.takeWhile (fun c => decide (IsSpace c))

/-- The condition asserted on entry of `IsStringEqualsCaseInsensitive`
(line 56), on the first byte of the input. -/
def EntryAssertion (mainChar : Int) : Prop :=
  0x20 ≠ mainChar ∧ (mainChar < 0x9 ∨ 0xd < mainChar)

instance : DecidablePred EntryAssertion := fun c => by unfold EntryAssertion; infer_instance

/-- The first byte read through a pointer to the C string with text `t`. -/
def firstByte (t : List Int) : Int := (cstr t).headD 0

/-- The entry assertion passes on the text `t`, or the build does not check it. -/
def AssertionPasses (checked : Bool) (t : List Int) : Prop :=
  checked = true → EntryAssertion (firstByte t)

instance : ∀ c t, Decidable (AssertionPasses c t) :=
  fun c t => by unfold AssertionPasses; infer_instance

/-- The input starts with the label up to the case of ASCII letters: it is at
least as long, and its first `label.length` characters fold to the folded label. -/
def LabelMatches (input label : List Int) : Prop :=
  label.length ≤ input.length ∧ (input.take label.length).map foldCase = label.map foldCase

instance : ∀ a b, Decidable (LabelMatches a b) := fun a b => by unfold LabelMatches; infer_instance

/-- The character is a byte outside ASCII: `0x80..0xFF` where `char` is
unsigned, a negative value where it is signed. -/
def NonAscii (c : Int) : Prop := c < 0 ∨ 0x80 ≤ c

instance : DecidablePred NonAscii := fun c => by unfold NonAscii; infer_instance

/-! ## Views: a pointer together with the bytes it can read -/

/-- `SkipWhitespace` entered at a pointer `s` that reads the bytes `view`. -/
def skipView (view : List Int) (s : Nat) : Result Nat :=
  match view with
  | [] => .fault .outOfBounds
  | c :: after => SkipWhitespace.loop after s c

/-- The second loop of `IsStringEqualsCaseInsensitive` at a pointer that reads `view`. -/
def trailView (view : List Int) (s : Nat) : Result (Option Nat) :=
  match view with
  | [] => .fault .outOfBounds
  | c :: after => IsStringEqualsCaseInsensitive.skip after s c

/-- The first loop of `IsStringEqualsCaseInsensitive` entered with pointers that
read `labelView` and `mainView`. -/
def compareView (labelView mainView : List Int) (s : Nat) : Result (Option Nat) :=
  match mainView, labelView with
  | m :: mainAfter, l :: labelAfter =>
    IsStringEqualsCaseInsensitive.compare labelAfter mainAfter s m l
  | _, _ => .fault .outOfBounds

/-- The test of line 86 on a returned pointer `p`: is the byte at `p` the
terminator? -/
def terminatorAt (mem : List Int) (p : Nat) : Result Bool :=
  match mem.drop p with
  | [] => .fault .outOfBounds
  | c :: _ => if 0 ≠ c then .ok false else .ok true

/-- A stand-in for `strtod` used to instantiate the statements: it converts one
decimal digit at the start pointer and stores the pointer behind it, and
stores the start pointer when no digit stands there. -/
def oneDigit (mem : List Int) (s : Nat) : Int × Option Nat :=
  match mem.drop s with
  | c :: _ => if 48 ≤ c ∧ c ≤ 57 then (c - 48, some (s + 1)) else (0, some s)
  | [] => (0, some s)

/-! ## Registration signals (`registration_exceptions.hpp`) and the scanner -/

/-- The exception classes of `registration_exceptions.hpp` (lines 18-67), in the
order of the file.  Each class is `final`, derives from `std::exception` alone
and has no member but its default constructor, so an exception is determined
by its class: one constructor per class. -/
inductive RegistrationException where
  | SkipRegistrationException
  | ParameterValueOutOfRangeException
  | ParameterMismatchWithConfigException
  | ParameterValueMalformedException
  | ParameterUnknownException
  | RegistrationConstructorException
  | IllegalParamNameException
  | IllegalRegistrationNameException
  | DuplicateParamNameException
deriving DecidableEq, Repr, Fintype

/-- Modelled from the spec: the signal kinds of the table of §4.2, in the order
of the table. -/
inductive Signal where
  | SkipRegistration
  | ParameterUnknown
  | ParameterValueMalformed
  | ParameterValueOutOfRange
  | ParameterMismatchWithConfig
  | DuplicateParamName
  | IllegalParamName
  | IllegalRegistrationName
  | ConstructorFailure
deriving DecidableEq, Repr, Fintype

/-- Modelled from the spec: the column "Scanner action" of the table of §4.2,
"continue to next candidate" against "stop".  The code that catches the
exceptions is not among the sources. -/
def Signal.isSoft : Signal → Bool
  | .SkipRegistration => true
  | .ParameterUnknown => false
  | .ParameterValueMalformed => false
  | .ParameterValueOutOfRange => false
  | .ParameterMismatchWithConfig => false
  | .DuplicateParamName => false
  | .IllegalParamName => false
  | .IllegalRegistrationName => false
  | .ConstructorFailure => false

/-- The signal of the table that an exception class stands for: the class name
without `Exception`, and `RegistrationConstructorException` for
`ConstructorFailure`. -/
def RegistrationException.signal : RegistrationException → Signal
  | .SkipRegistrationException => .SkipRegistration
  | .ParameterValueOutOfRangeException => .ParameterValueOutOfRange
  | .ParameterMismatchWithConfigException => .ParameterMismatchWithConfig
  | .ParameterValueMalformedException => .ParameterValueMalformed
  | .ParameterUnknownException => .ParameterUnknown
  | .RegistrationConstructorException => .ConstructorFailure
  | .IllegalParamNameException => .IllegalParamName
  | .IllegalRegistrationNameException => .IllegalRegistrationName
  | .DuplicateParamNameException => .DuplicateParamName

/-- What the constructor of a candidate does with the configuration text: it
returns the component or throws one of the exception classes. -/
inductive Attempt (κ : Type) where
  | matched (component : κ)
  | threw (e : RegistrationException)
deriving DecidableEq, Repr

/-- Modelled from the spec: the `CandidateDescriptor` of §3, a registration name
and a constructor from the configuration text. -/
structure CandidateDescriptor (κ : Type) where
  registrationName : List Int
  construct : List Int → Attempt κ

/-- Modelled from the spec: what the candidate scanner hands to its caller (§4.3,
§6): the resolved component, the "no matching registration" outcome, or a
terminal failure with its kind and the name of the candidate probed. -/
inductive ScanOutcome (κ : Type) where
  | resolved (component : κ)
  | noMatchingRegistration
  | failed (kind : RegistrationException) (candidate : List Int)
deriving DecidableEq, Repr

/-- Modelled from the spec: the candidate scanner of §4.3, whose code is not
among the sources.  It invokes the constructors in list order: on a component
it returns at once, on `SkipRegistrationException` it goes on to the next
candidate, on any other exception it stops and hands the exception on, and on
an exhausted list it gives "no matching registration".  Beside the outcome it
gives the names of the candidates whose constructor it invoked, in order. -/
def scanCandidates {κ : Type} (text : List Int) :
    List (CandidateDescriptor κ) → ScanOutcome κ × List (List Int)
  | [] => (.noMatchingRegistration, [])
  | c :: rest =>
    match c.construct text with
    | .matched x => (.resolved x, [c.registrationName])
    | .threw .SkipRegistrationException =>
      ((scanCandidates text rest).1, c.registrationName :: (scanCandidates text rest).2)
    | .threw e => (.failed e c.registrationName, [c.registrationName])

/-- A candidate used to instantiate the statements: when the configuration text
is its name up to case and trailing white space (`IsStringEqualsForgiving`) it
does `result`, and it throws `SkipRegistrationException` otherwise. -/
def namedCandidate (name : List Int) (result : Attempt Nat) : CandidateDescriptor Nat where
  registrationName := name
  construct := fun text =>
    match IsStringEqualsForgiving false (cstr text) 0 (cstr name) 0 with
    | .ok true => result
    | _ => .threw .SkipRegistrationException

/-! ## Basic facts -/

theorem isSpace_iff (c : Int) : IsSpace c ↔ (0x20 = c ∨ (0x9 ≤ c ∧ c ≤ 0xd)) := by
  unfold IsSpace; omega

theorem entryAssertion_iff (c : Int) : EntryAssertion c ↔ ¬ IsSpace c := by
  unfold EntryAssertion IsSpace; omega

theorem not_isSpace_zero : ¬ IsSpace 0 := by decide

theorem foldCase_eq_zero (c : Int) : foldCase c = 0 ↔ c = 0 := by
  unfold foldCase; split <;> omega

theorem caseFlip_iff (a b : Int) : CaseFlip a b ↔ foldCase a = foldCase b := by
  unfold CaseFlip foldCase; split <;> split <;> omega

theorem caseVariant_length {a b : List Int} (h : CaseVariant a b) : a.length = b.length :=
  List.Forall₂.length_eq h

theorem caseVariant_map {a b : List Int} (h : CaseVariant a b) :
    a.map foldCase = b.map foldCase := by
  induction h with
  | nil => rfl
  | cons hab _ ih => simp [ih, (caseFlip_iff _ _).1 hab]

theorem cstr_drop (t : List Int) (k : Nat) (hk : k ≤ t.length) :
    (cstr t).drop k = cstr (t.drop k) := by
  unfold cstr
  rw [List.drop_append_of_le_length hk]

theorem skipView_eq (mem : List Int) (s : Nat) : SkipWhitespace mem s = skipView (mem.drop s) s := by
  unfold SkipWhitespace skipView; rfl

/-- The loop of `SkipWhitespace` and the second loop of
`IsStringEqualsCaseInsensitive` compute the same pointer. -/
theorem skip_eq_loop (after : List Int) (s : Nat) (c : Int) :
    IsStringEqualsCaseInsensitive.skip after s c = (SkipWhitespace.loop after s c).map some := by
  induction after generalizing s c with
  | nil =>
    unfold IsStringEqualsCaseInsensitive.skip SkipWhitespace.loop
    split <;> rfl
  | cons a rest ih =>
    unfold IsStringEqualsCaseInsensitive.skip SkipWhitespace.loop
    split
    · exact ih (s + 1) a
    · rfl

theorem trailView_eq (view : List Int) (s : Nat) : trailView view s = (skipView view s).map some := by
  cases view with
  | nil => rfl
  | cons c after => exact skip_eq_loop after s c

/-- The loop of `SkipWhitespace` on a C string: it stops behind the leading
white space, and never reads behind the terminator. -/
theorem loop_cstr (t : List Int) (s : Nat) (c : Int) :
    SkipWhitespace.loop (cstr t) s c =
      if IsSpace c then .ok (s + 1 + (leadingSpace t).length) else .ok s := by
  induction t generalizing s c with
  | nil =>
    unfold SkipWhitespace.loop
    simp only [← isSpace_iff, cstr, List.nil_append]
    split
    · unfold SkipWhitespace.loop
      simp [leadingSpace]
    · rfl
  | cons a rest ih =>
    unfold SkipWhitespace.loop
    simp only [← isSpace_iff, cstr, List.cons_append]
    split
    · have := ih (s + 1) a
      unfold cstr at this
      rw [this]
      unfold leadingSpace
      by_cases ha : IsSpace a
      · simp [ha]; omega
      · simp [ha]
    · rfl

theorem skipView_cstr (t : List Int) (s : Nat) :
    skipView (cstr t) s = .ok (s + (leadingSpace t).length) := by
  cases t with
  | nil =>
    show SkipWhitespace.loop [] s 0 = _
    unfold SkipWhitespace.loop
    simp [leadingSpace]
  | cons a rest =>
    show SkipWhitespace.loop (cstr rest) s a = _
    rw [loop_cstr]
    unfold leadingSpace
    by_cases ha : IsSpace a
    · simp [ha]; omega
    · simp [ha]

/-- `SkipWhitespace` at any pointer into a C string, terminator included. -/
theorem SkipWhitespace_cstr (t : List Int) (k : Nat) (hk : k ≤ t.length) :
    SkipWhitespace (cstr t) k = .ok (k + (leadingSpace (t.drop k)).length) := by
  rw [skipView_eq, cstr_drop t k hk, skipView_cstr]

theorem cstr_cons (a : Int) (t : List Int) : cstr (a :: t) = a :: cstr t := rfl

theorem cstr_nil : cstr [] = [0] := rfl

theorem compare_step_eq (la ma : List Int) (s : Nat) (m l : Int) (hl : l ≠ 0)
    (hf : foldCase m = foldCase l) :
    IsStringEqualsCaseInsensitive.compare la ma s m l = compareView la ma (s + 1) := by
  have hl0 : (0 : Int) ≠ l := fun h => hl h.symm
  have hf2 : (if 65 ≤ m ∧ m ≤ 90 then m + (97 - 65) else m) =
      (if 65 ≤ l ∧ l ≤ 90 then l + (97 - 65) else l) := hf
  unfold IsStringEqualsCaseInsensitive.compare compareView
  simp only [hl0, hf2, ne_eq, not_false_eq_true, not_true_eq_false, if_true, if_false]
  cases la <;> cases ma <;> rfl

theorem compare_step_ne (la ma : List Int) (s : Nat) (m l : Int) (hl : l ≠ 0)
    (hf : foldCase m ≠ foldCase l) :
    IsStringEqualsCaseInsensitive.compare la ma s m l = .ok none := by
  have hl0 : (0 : Int) ≠ l := fun h => hl h.symm
  have hf2 : (if 65 ≤ m ∧ m ≤ 90 then m + (97 - 65) else m) ≠
      (if 65 ≤ l ∧ l ≤ 90 then l + (97 - 65) else l) := hf
  unfold IsStringEqualsCaseInsensitive.compare
  simp only [hl0, hf2, ne_eq, not_false_eq_true, if_true]

theorem compare_end (la ma : List Int) (s : Nat) (m : Int) :
    IsStringEqualsCaseInsensitive.compare la ma s m 0 = trailView (m :: ma) s := by
  unfold IsStringEqualsCaseInsensitive.compare trailView
  simp

/-- The first loop on two C strings: `NULL` unless the input starts with the
label up to case, and then the second loop runs from the byte behind it. -/
theorem compareView_cstr (label input : List Int) (s : Nat) (hl : NulFree label) :
    compareView (cstr label) (cstr input) s =
      if LabelMatches input label then
        trailView (cstr (input.drop label.length)) (s + label.length)
      else .ok none := by
  induction label generalizing input s with
  | nil =>
    have hm : LabelMatches input [] := by simp [LabelMatches]
    rw [if_pos hm]
    cases input with
    | nil => exact compare_end [] [] s 0
    | cons m ms => exact compare_end [] (cstr ms) s m
  | cons l ls ih =>
    have hl0 : l ≠ 0 := hl l (List.mem_cons_self _ _)
    have hls : NulFree ls := fun c hc => hl c (List.mem_cons_of_mem _ hc)
    cases input with
    | nil =>
      have hm : ¬ LabelMatches [] (l :: ls) := by simp [LabelMatches]
      rw [if_neg hm]
      have hf : foldCase 0 ≠ foldCase l := by
        intro h
        exact hl0 ((foldCase_eq_zero l).1 h.symm)
      exact compare_step_ne (cstr ls) [] s 0 l hl0 hf
    | cons m ms =>
      show IsStringEqualsCaseInsensitive.compare (cstr ls) (cstr ms) s m l = _
      by_cases hf : foldCase m = foldCase l
      · rw [compare_step_eq _ _ _ _ _ hl0 hf, ih ms (s + 1) hls]
        have hiff : LabelMatches (m :: ms) (l :: ls) ↔ LabelMatches ms ls := by
          simp [LabelMatches, hf]
        by_cases hm : LabelMatches ms ls
        · rw [if_pos hm, if_pos (hiff.2 hm)]
          simp only [List.length_cons, List.drop_succ_cons]
          congr 1
          omega
        · rw [if_neg hm, if_neg (fun h => hm (hiff.1 h))]
      · rw [compare_step_ne _ _ _ _ _ hl0 hf]
        have hm : ¬ LabelMatches (m :: ms) (l :: ls) := by
          simp [LabelMatches, hf]
        rw [if_neg hm]

/-- Entry of `IsStringEqualsCaseInsensitive` at pointers into two C strings. -/
theorem IsStringEqualsCaseInsensitive_entry (checked : Bool) (mt lt : List Int) (sMain sLabel : Nat)
    (hm : sMain ≤ mt.length) (hl : sLabel ≤ lt.length) :
    IsStringEqualsCaseInsensitive checked (cstr mt) sMain (cstr lt) sLabel =
      if checked = true ∧ ¬ EntryAssertion (firstByte (mt.drop sMain)) then .fault .assertion
      else compareView (cstr (lt.drop sLabel)) (cstr (mt.drop sMain)) sMain := by
  unfold IsStringEqualsCaseInsensitive
  rw [cstr_drop mt sMain hm, cstr_drop lt sLabel hl]
  cases hmd : mt.drop sMain with
  | nil =>
    cases hld : lt.drop sLabel with
    | nil => rfl
    | cons l ls => rfl
  | cons m ms =>
    cases hld : lt.drop sLabel with
    | nil => rfl
    | cons l ls => rfl

/-- What `IsStringEqualsCaseInsensitive` returns on two C strings when the entry
assertion passes or is not checked. -/
theorem IsStringEqualsCaseInsensitive_cstr (checked : Bool) (input label : List Int)
    (hl : NulFree label) (ha : AssertionPasses checked input) :
    IsStringEqualsCaseInsensitive checked (cstr input) 0 (cstr label) 0 =
      if LabelMatches input label then
        .ok (some (label.length + (leadingSpace (input.drop label.length)).length))
      else .ok none := by
  rw [IsStringEqualsCaseInsensitive_entry checked input label 0 0 (Nat.zero_le _) (Nat.zero_le _)]
  have hna : ¬ (checked = true ∧ ¬ EntryAssertion (firstByte (List.drop 0 input))) := by
    rintro ⟨hc, hn⟩
    exact hn (ha hc)
  rw [if_neg hna]
  simp only [List.drop_zero]
  rw [compareView_cstr label input 0 hl]
  by_cases hm : LabelMatches input label
  · rw [if_pos hm, if_pos hm, trailView_eq, skipView_cstr]
    simp [Result.map]
  · rw [if_neg hm, if_neg hm]

/-- A checked build stops at the entry assertion when the input starts with
white space. -/
theorem IsStringEqualsCaseInsensitive_assert (input label : List Int)
    (ha : ¬ EntryAssertion (firstByte input)) :
    IsStringEqualsCaseInsensitive true (cstr input) 0 (cstr label) 0 = .fault .assertion := by
  rw [IsStringEqualsCaseInsensitive_entry true input label 0 0 (Nat.zero_le _) (Nat.zero_le _)]
  simp only [List.drop_zero]
  rw [if_pos ⟨trivial, ha⟩]

theorem leadingSpace_cons (a : Int) (t : List Int) :
    leadingSpace (a :: t) = if IsSpace a then a :: leadingSpace t else [] := by
  unfold leadingSpace
  by_cases ha : IsSpace a <;> simp [ha]

theorem leadingSpace_length_le (t : List Int) : (leadingSpace t).length ≤ t.length := by
  induction t with
  | nil => simp [leadingSpace]
  | cons a rest ih =>
    rw [leadingSpace_cons]
    split
    · simp; omega
    · simp

theorem leadingSpace_all (t : List Int) : ∀ c ∈ leadingSpace t, IsSpace c := by
  induction t with
  | nil => simp [leadingSpace]
  | cons a rest ih =>
    rw [leadingSpace_cons]
    split
    · intro c hc
      rcases List.mem_cons.1 hc with h | h
      · exact h ▸ ‹IsSpace a›
      · exact ih c h
    · simp

/-- The byte behind the leading white space of a C string is no white space:
it is the terminator when the whole text is white space, and a character of
the text otherwise. -/
theorem byte_after_leadingSpace (t : List Int) :
    ∃ x, (cstr t)[(leadingSpace t).length]? = some x ∧ ¬ IsSpace x ∧
      ((x = 0 ∧ ∀ c ∈ t, IsSpace c) ∨ x ∈ t) := by
  induction t with
  | nil => exact ⟨0, by simp [leadingSpace, cstr], not_isSpace_zero, Or.inl ⟨rfl, by simp⟩⟩
  | cons a rest ih =>
    rw [leadingSpace_cons]
    by_cases ha : IsSpace a
    · obtain ⟨x, hx, hs, hmem⟩ := ih
      refine ⟨x, ?_, hs, ?_⟩
      · simpa [ha, cstr] using hx
      · rcases hmem with ⟨h0, hall⟩ | h
        · refine Or.inl ⟨h0, ?_⟩
          intro c hc
          rcases List.mem_cons.1 hc with h1 | h1
          · exact h1 ▸ ha
          · exact hall c h1
        · exact Or.inr (List.mem_cons_of_mem _ h)
    · exact ⟨a, by simp [ha, cstr], ha, Or.inr (List.mem_cons_self _ _)⟩

/-- A text with leading white space `w` in front of a byte that is none. -/
theorem leadingSpace_append (w rest : List Int) (hw : ∀ c ∈ w, IsSpace c)
    (hr : ∀ c ∈ rest.head?, ¬ IsSpace c) : leadingSpace (w ++ rest) = w := by
  induction w with
  | nil =>
    cases rest with
    | nil => rfl
    | cons x xs =>
      have hx : ¬ IsSpace x := hr x (by simp)
      simp [leadingSpace_cons, hx]
  | cons a ws ih =>
    have ha : IsSpace a := hw a (List.mem_cons_self _ _)
    have := ih (fun c hc => hw c (List.mem_cons_of_mem _ hc))
    simp [leadingSpace_cons, ha, this]

theorem leadingSpace_eq_self {t : List Int} (h : ∀ c ∈ t, IsSpace c) : leadingSpace t = t := by
  have := leadingSpace_append t [] h (by simp)
  simpa using this

/-- Line 86 on the pointer behind the leading white space of a C string: the
byte there is the terminator exactly when the whole text is white space. -/
theorem terminatorAt_leadingSpace (u : List Int) (hn : NulFree u) :
    terminatorAt (cstr u) (leadingSpace u).length = .ok (decide (∀ c ∈ u, IsSpace c)) := by
  induction u with
  | nil => simp [terminatorAt, leadingSpace, cstr]
  | cons a rest ih =>
    have ha0 : a ≠ 0 := hn a (List.mem_cons_self _ _)
    have hrest : NulFree rest := fun c hc => hn c (List.mem_cons_of_mem _ hc)
    rw [leadingSpace_cons]
    by_cases ha : IsSpace a
    · have h1 : terminatorAt (cstr (a :: rest)) (leadingSpace rest).length.succ =
          terminatorAt (cstr rest) (leadingSpace rest).length := rfl
      simp only [ha, if_true, List.length_cons]
      rw [h1, ih hrest]
      simp [ha]
    · have ha1 : (0 : Int) ≠ a := fun h => ha0 h.symm
      simp [ha, terminatorAt, cstr, ha1]

theorem terminatorAt_cstr (t : List Int) (k : Nat) (hk : k ≤ t.length) (hn : NulFree t) :
    terminatorAt (cstr t) (k + (leadingSpace (t.drop k)).length) =
      .ok (decide (∀ c ∈ t.drop k, IsSpace c)) := by
  have hd : NulFree (t.drop k) := fun c hc => hn c (List.mem_of_mem_drop hc)
  rw [← terminatorAt_leadingSpace (t.drop k) hd]
  unfold terminatorAt
  rw [← List.drop_drop, cstr_drop t k hk]

theorem IsStringEqualsForgiving_eq (checked : Bool) (main : List Int) (sMain : Nat)
    (label : List Int) (sLabel : Nat) :
    IsStringEqualsForgiving checked main sMain label sLabel =
      match IsStringEqualsCaseInsensitive checked main sMain label sLabel with
      | .fault f => .fault f
      | .ok none => .ok false
      | .ok (some p) => terminatorAt main p := rfl

/-- What `IsStringEqualsForgiving` returns on two C strings when the entry
assertion passes or is not checked. -/
theorem IsStringEqualsForgiving_cstr (checked : Bool) (input label : List Int)
    (hi : NulFree input) (hl : NulFree label) (ha : AssertionPasses checked input) :
    IsStringEqualsForgiving checked (cstr input) 0 (cstr label) 0 =
      .ok (decide (LabelMatches input label ∧ ∀ c ∈ input.drop label.length, IsSpace c)) := by
  rw [IsStringEqualsForgiving_eq, IsStringEqualsCaseInsensitive_cstr checked input label hl ha]
  by_cases hm : LabelMatches input label
  · rw [if_pos hm]
    show terminatorAt _ _ = _
    rw [terminatorAt_cstr input label.length hm.1 hi]
    simp [hm]
  · rw [if_neg hm]
    simp [hm]

theorem IsStringEqualsForgiving_assert (input label : List Int)
    (ha : ¬ EntryAssertion (firstByte input)) :
    IsStringEqualsForgiving true (cstr input) 0 (cstr label) 0 = .fault .assertion := by
  rw [IsStringEqualsForgiving_eq, IsStringEqualsCaseInsensitive_assert input label ha]

theorem labelMatches_append {p rest label : List Int} (hlen : p.length = label.length)
    (hf : p.map foldCase = label.map foldCase) : LabelMatches (p ++ rest) label := by
  refine ⟨by simp [hlen], ?_⟩
  rw [← hlen, List.take_left']
  · exact hf
  · rfl

theorem labelMatches_iff_split (input label : List Int) (P : List Int → Prop) :
    (LabelMatches input label ∧ P (input.drop label.length)) ↔
      ∃ p w, input = p ++ w ∧ p.length = label.length ∧
        p.map foldCase = label.map foldCase ∧ P w := by
  constructor
  · rintro ⟨⟨hlen, hf⟩, hP⟩
    exact ⟨input.take label.length, input.drop label.length,
      (List.take_append_drop _ _).symm, by simp [hlen], hf, hP⟩
  · rintro ⟨p, w, rfl, hlen, hf, hP⟩
    refine ⟨labelMatches_append hlen hf, ?_⟩
    rw [← hlen, List.drop_left']
    · exact hP
    · rfl

theorem nulFree_of_caseVariant {a b : List Int} (h : CaseVariant a b) (hb : NulFree b) :
    NulFree a := by
  induction h with
  | nil => intro c hc; simp at hc
  | @cons x y xs ys hab _ ih =>
    intro c hc
    rcases List.mem_cons.1 hc with h1 | h1
    · subst h1
      have hy : y ≠ 0 := hb y (List.mem_cons_self _ _)
      intro hc0
      have := (caseFlip_iff c y).1 hab
      rw [hc0] at this
      exact hy ((foldCase_eq_zero y).1 this.symm)
    · exact ih (fun c hc => hb c (List.mem_cons_of_mem _ hc)) c h1

theorem nulFree_of_space {w : List Int} (h : ∀ c ∈ w, IsSpace c) : NulFree w := by
  intro c hc h0
  exact not_isSpace_zero (h0 ▸ h c hc)

theorem nulFree_append {a b : List Int} (ha : NulFree a) (hb : NulFree b) : NulFree (a ++ b) := by
  intro c hc
  rcases List.mem_append.1 hc with h | h
  · exact ha c h
  · exact hb c h

/-- The input does not start with the label exactly when it is shorter or
differs from it, after folding, at a position of both. -/
theorem not_labelMatches_iff (input label : List Int) :
    ¬ LabelMatches input label ↔
      (input.length < label.length ∨
        ∃ (i : Nat) (a b : Int),
          input[i]? = some a ∧ label[i]? = some b ∧ foldCase a ≠ foldCase b) := by
  induction label generalizing input with
  | nil => simp [LabelMatches]
  | cons l ls ih =>
    cases input with
    | nil => simp [LabelMatches]
    | cons m ms =>
      have hiff : LabelMatches (m :: ms) (l :: ls) ↔
          (foldCase m = foldCase l ∧ LabelMatches ms ls) := by
        simp only [LabelMatches, List.length_cons, List.take_succ_cons, List.map_cons,
          List.cons.injEq]
        constructor
        · rintro ⟨h1, h2, h3⟩; exact ⟨h2, by omega, h3⟩
        · rintro ⟨h2, h1, h3⟩; exact ⟨by omega, h2, h3⟩
      rw [hiff, not_and_or, ih ms]
      constructor
      · rintro (h | h | ⟨i, a, b, h1, h2, h3⟩)
        · exact Or.inr ⟨0, m, l, by simp, by simp, h⟩
        · exact Or.inl (by simpa using h)
        · exact Or.inr ⟨i + 1, a, b, by simpa using h1, by simpa using h2, h3⟩
      · rintro (h | ⟨i, a, b, h1, h2, h3⟩)
        · exact Or.inr (Or.inl (by simpa using h))
        · cases i with
          | zero =>
            simp only [List.getElem?_cons_zero, Option.some.injEq] at h1 h2
            subst h1 h2
            exact Or.inl h3
          | succ j =>
            exact Or.inr (Or.inr ⟨j, a, b, by simpa using h1, by simpa using h2, h3⟩)

/-! ## Forgiving equality -/

/-- C1 as the code has it: for every label `L`, every case variant of `L` and
every run `w` of white space, `IsStringEqualsForgiving` on the variant followed
by `w` returns true (in a build that checks assertions: when that input passes
the entry assertion).  White space is accepted behind the label only. -/
theorem IsStringEqualsForgiving_trailing_space (checked : Bool) (label variant w : List Int)
    (hl : NulFree label) (hv : CaseVariant variant label) (hw : ∀ c ∈ w, IsSpace c)
    (ha : AssertionPasses checked (variant ++ w)) :
    IsStringEqualsForgiving checked (cstr (variant ++ w)) 0 (cstr label) 0 = .ok true := by
  have hi : NulFree (variant ++ w) :=
    nulFree_append (nulFree_of_caseVariant hv hl) (nulFree_of_space hw)
  rw [IsStringEqualsForgiving_cstr checked _ label hi hl ha]
  have hm : LabelMatches (variant ++ w) label :=
    labelMatches_append (caseVariant_length hv) (caseVariant_map hv)
  have hd : (variant ++ w).drop label.length = w := by
    rw [← caseVariant_length hv, List.drop_left']
    rfl
  have : LabelMatches (variant ++ w) label ∧
      ∀ c ∈ (variant ++ w).drop label.length, IsSpace c := ⟨hm, by rw [hd]; exact hw⟩
  exact congrArg Result.ok (decide_eq_true this)

/-- Witness of C1 as amended: `"rmse  "` against the label `"RMSE"`, in a build
that checks assertions. -/
theorem IsStringEqualsForgiving_trailing_space_witness :
    NulFree [82, 77, 83, 69] ∧ CaseVariant [114, 109, 115, 101] [82, 77, 83, 69] ∧
      (∀ c ∈ [32, 32], IsSpace c) ∧ AssertionPasses true ([114, 109, 115, 101] ++ [32, 32]) ∧
      IsStringEqualsForgiving true (cstr ([114, 109, 115, 101] ++ [32, 32])) 0
        (cstr [82, 77, 83, 69]) 0 = .ok true :=
  have hv : CaseVariant [114, 109, 115, 101] [82, 77, 83, 69] := by
    unfold CaseVariant; decide
  ⟨by decide, hv, by decide, by decide,
    IsStringEqualsForgiving_trailing_space true [82, 77, 83, 69] [114, 109, 115, 101] [32, 32]
      (by decide) hv (by decide) (by decide)⟩

/-- C1 as stated fails: `"  rmse  "` is the label `"RMSE"` with its case changed
and white space added on both sides, and `IsStringEqualsForgiving` returns
false on it (and stops at the entry assertion in a build that checks it). -/
theorem IsStringEqualsForgiving_leading_space_counterexample :
    CaseVariant [114, 109, 115, 101] [82, 77, 83, 69] ∧
      (∀ c ∈ [32, 32], IsSpace c) ∧
      IsStringEqualsForgiving false (cstr ([32, 32] ++ [114, 109, 115, 101] ++ [32, 32])) 0
        (cstr [82, 77, 83, 69]) 0 = .ok false ∧
      IsStringEqualsForgiving true (cstr ([32, 32] ++ [114, 109, 115, 101] ++ [32, 32])) 0
        (cstr [82, 77, 83, 69]) 0 = .fault .assertion :=
  ⟨by unfold CaseVariant; decide, by decide, by decide, by decide⟩

/-- C2: for NUL-free `input` and `label`, `IsStringEqualsForgiving` returns true
exactly when `input = p ++ w` with `p` as long as the label, equal to it
position by position after case folding, and `w` all white space; in every
other case it returns false.  (In a build that checks assertions this holds of
the inputs that pass the entry assertion.) -/
theorem IsStringEqualsForgiving_iff (checked : Bool) (input label : List Int)
    (hi : NulFree input) (hl : NulFree label) (ha : AssertionPasses checked input) :
    (IsStringEqualsForgiving checked (cstr input) 0 (cstr label) 0 = .ok true ↔
      ∃ p w, input = p ++ w ∧ p.length = label.length ∧
        p.map foldCase = label.map foldCase ∧ ∀ c ∈ w, IsSpace c) ∧
    ((¬ ∃ p w, input = p ++ w ∧ p.length = label.length ∧
        p.map foldCase = label.map foldCase ∧ ∀ c ∈ w, IsSpace c) →
      IsStringEqualsForgiving checked (cstr input) 0 (cstr label) 0 = .ok false) := by
  rw [IsStringEqualsForgiving_cstr checked input label hi hl ha,
    ← labelMatches_iff_split input label (fun w => ∀ c ∈ w, IsSpace c)]
  constructor
  · simp
  · intro h
    simp [h]

/-- Witness of C2: `"Rmse \t"` against `"rMSE"`. -/
theorem IsStringEqualsForgiving_iff_witness :
    NulFree [82, 109, 115, 101, 32, 9] ∧ NulFree [114, 77, 83, 69] ∧
      AssertionPasses true [82, 109, 115, 101, 32, 9] ∧
      ((IsStringEqualsForgiving true (cstr [82, 109, 115, 101, 32, 9]) 0
          (cstr [114, 77, 83, 69]) 0 = .ok true ↔
        ∃ p w, [82, 109, 115, 101, 32, 9] = p ++ w ∧ p.length = [114, 77, 83, 69].length ∧
          p.map foldCase = [114, 77, 83, 69].map foldCase ∧ ∀ c ∈ w, IsSpace c) ∧
      ((¬ ∃ p w, [82, 109, 115, 101, 32, 9] = p ++ w ∧ p.length = [114, 77, 83, 69].length ∧
          p.map foldCase = [114, 77, 83, 69].map foldCase ∧ ∀ c ∈ w, IsSpace c) →
        IsStringEqualsForgiving true (cstr [82, 109, 115, 101, 32, 9]) 0
          (cstr [114, 77, 83, 69]) 0 = .ok false)) :=
  ⟨by decide, by decide, by decide,
    IsStringEqualsForgiving_iff true [82, 109, 115, 101, 32, 9] [114, 77, 83, 69]
      (by decide) (by decide) (by decide)⟩

/-- C3: for every label `L`, every case variant of `L` and every extra text
holding a character that is no white space, `IsStringEqualsForgiving` on the
variant followed by the extra text returns false, while
`IsStringEqualsCaseInsensitive` returns the pointer behind the label and the
white space that follows it, and the byte there is a character of the extra
text that is no white space; nothing is required of the character that
follows the label.  (In a build that checks assertions this holds of the
inputs that pass the entry assertion.) -/
theorem IsStringEquals_extra_text (checked : Bool) (label variant extra : List Int)
    (hl : NulFree label) (hv : CaseVariant variant label) (he : NulFree extra)
    (hx : ∃ c ∈ extra, ¬ IsSpace c) (ha : AssertionPasses checked (variant ++ extra)) :
    IsStringEqualsForgiving checked (cstr (variant ++ extra)) 0 (cstr label) 0 = .ok false ∧
    IsStringEqualsCaseInsensitive checked (cstr (variant ++ extra)) 0 (cstr label) 0 =
      .ok (some (label.length + (leadingSpace extra).length)) ∧
    ∃ x, (cstr (variant ++ extra))[label.length + (leadingSpace extra).length]? = some x ∧
      x ∈ extra ∧ ¬ IsSpace x := by
  have hi : NulFree (variant ++ extra) := nulFree_append (nulFree_of_caseVariant hv hl) he
  have hm : LabelMatches (variant ++ extra) label :=
    labelMatches_append (caseVariant_length hv) (caseVariant_map hv)
  have hd : (variant ++ extra).drop label.length = extra := by
    rw [← caseVariant_length hv, List.drop_left']
    rfl
  refine ⟨?_, ?_, ?_⟩
  · rw [IsStringEqualsForgiving_cstr checked _ label hi hl ha, hd]
    have : ¬ ∀ c ∈ extra, IsSpace c := by
      intro hall
      obtain ⟨c, hc, hns⟩ := hx
      exact hns (hall c hc)
    simp [this]
  · rw [IsStringEqualsCaseInsensitive_cstr checked _ label hl ha, if_pos hm, hd]
  · obtain ⟨x, hget, hns, hmem⟩ := byte_after_leadingSpace extra
    refine ⟨x, ?_, ?_, hns⟩
    · have hc : cstr (variant ++ extra) = variant ++ cstr extra := by
        simp [cstr]
      rw [hc, ← caseVariant_length hv, List.getElem?_append_right (by omega)]
      simpa using hget
    · rcases hmem with ⟨_, hall⟩ | h
      · obtain ⟨c, hc, hnc⟩ := hx
        exact absurd (hall c hc) hnc
      · exact h

/-- Witness of C3: `"rmseX"` against the label `"rmse"` is no forgiving match,
and the case-insensitive match returns the pointer to `'X'`. -/
theorem IsStringEquals_extra_text_witness :
    NulFree [114, 109, 115, 101] ∧ CaseVariant [114, 109, 115, 101] [114, 109, 115, 101] ∧
      NulFree [88] ∧ (∃ c ∈ [88], ¬ IsSpace c) ∧
      AssertionPasses true ([114, 109, 115, 101] ++ [88]) ∧
      (IsStringEqualsForgiving true (cstr ([114, 109, 115, 101] ++ [88])) 0
          (cstr [114, 109, 115, 101]) 0 = .ok false ∧
        IsStringEqualsCaseInsensitive true (cstr ([114, 109, 115, 101] ++ [88])) 0
          (cstr [114, 109, 115, 101]) 0 =
            .ok (some ([114, 109, 115, 101].length + (leadingSpace [88]).length)) ∧
        ∃ x, (cstr ([114, 109, 115, 101] ++ [88]))[[114, 109, 115, 101].length +
            (leadingSpace [88]).length]? = some x ∧ x ∈ [88] ∧ ¬ IsSpace x) :=
  have hv : CaseVariant [114, 109, 115, 101] [114, 109, 115, 101] := by
    unfold CaseVariant; decide
  ⟨by decide, hv, by decide, by decide, by decide,
    IsStringEquals_extra_text true [114, 109, 115, 101] [114, 109, 115, 101] [88]
      (by decide) hv (by decide) (by decide) (by decide)⟩

/-- C4: for a NUL-free label, `IsStringEqualsCaseInsensitive` returns `NULL`
exactly when the input is shorter than the label or differs from it, after
case folding, at some position; otherwise it returns the pointer
`SkipWhitespace` gives behind the label, the first position there that holds
no white space.  (In a build that checks assertions this holds of the inputs
that pass the entry assertion.) -/
theorem IsStringEqualsCaseInsensitive_iff (checked : Bool) (input label : List Int)
    (hl : NulFree label) (ha : AssertionPasses checked input) :
    (IsStringEqualsCaseInsensitive checked (cstr input) 0 (cstr label) 0 = .ok none ↔
      (input.length < label.length ∨
        ∃ (i : Nat) (a b : Int),
          input[i]? = some a ∧ label[i]? = some b ∧ foldCase a ≠ foldCase b)) ∧
    (¬ (input.length < label.length ∨
        ∃ (i : Nat) (a b : Int),
          input[i]? = some a ∧ label[i]? = some b ∧ foldCase a ≠ foldCase b) →
      IsStringEqualsCaseInsensitive checked (cstr input) 0 (cstr label) 0 =
          (SkipWhitespace (cstr input) label.length).map some ∧
        SkipWhitespace (cstr input) label.length =
          .ok (label.length + (leadingSpace (input.drop label.length)).length)) := by
  rw [IsStringEqualsCaseInsensitive_cstr checked input label hl ha,
    ← not_labelMatches_iff input label]
  constructor
  · by_cases hm : LabelMatches input label
    · simp [hm]
    · simp [hm]
  · intro hm
    rw [not_not] at hm
    rw [if_pos hm, SkipWhitespace_cstr input label.length hm.1]
    exact ⟨rfl, rfl⟩

/-- Witness of C4: `"ab c"` against `"AB"`. -/
theorem IsStringEqualsCaseInsensitive_iff_witness :
    NulFree [65, 66] ∧ AssertionPasses true [97, 98, 32, 99] ∧
      IsStringEqualsCaseInsensitive true (cstr [97, 98, 32, 99]) 0 (cstr [65, 66]) 0 =
        .ok (some 3) :=
  ⟨by decide, by decide,
    ((IsStringEqualsCaseInsensitive_iff true [97, 98, 32, 99] [65, 66]
      (by decide) (by decide)).2
        (fun h => (not_labelMatches_iff [97, 98, 32, 99] [65, 66]).2 h (by decide))).1.trans
      (by decide)⟩

/-! ## White-space skipping -/

theorem isSpace_iff_mem (c : Int) :
    IsSpace c ↔ c ∈ ([0x20, 0x09, 0x0A, 0x0B, 0x0C, 0x0D] : List Int) := by
  simp [IsSpace]

theorem leadingSpace_split (u : List Int) :
    ∃ rest, u = leadingSpace u ++ rest ∧
      (rest = [] ∨ ∃ x tail, rest = x :: tail ∧ ¬ IsSpace x) := by
  induction u with
  | nil => exact ⟨[], rfl, Or.inl rfl⟩
  | cons a t ih =>
    rw [leadingSpace_cons]
    by_cases ha : IsSpace a
    · obtain ⟨rest, h1, h2⟩ := ih
      refine ⟨rest, ?_, h2⟩
      simp only [ha, if_true, List.cons_append]
      rw [← h1]
    · exact ⟨a :: t, by simp [ha], Or.inr ⟨a, t, rfl, ha⟩⟩

theorem leadingSpace_drop (u : List Int) :
    leadingSpace (u.drop (leadingSpace u).length) = [] := by
  induction u with
  | nil => rfl
  | cons a t ih =>
    by_cases ha : IsSpace a
    · simpa [leadingSpace_cons, ha] using ih
    · simp [leadingSpace_cons, ha]

/-- C5: at every pointer `k` into a C string, terminator included,
`SkipWhitespace` returns: it skips a run `w` of bytes of the set
`{0x20, 0x09, 0x0A, 0x0B, 0x0C, 0x0D}` and returns the pointer behind it, where
the text ends or a byte outside that set stands.  The empty string and a string
of white space only are included. -/
theorem SkipWhitespace_spec (t : List Int) (k : Nat) (hk : k ≤ t.length) :
    ∃ w rest, t.drop k = w ++ rest ∧
      SkipWhitespace (cstr t) k = .ok (k + w.length) ∧
      (∀ c ∈ w, c ∈ ([0x20, 0x09, 0x0A, 0x0B, 0x0C, 0x0D] : List Int)) ∧
      (rest = [] ∨
        ∃ x tail, rest = x :: tail ∧ x ∉ ([0x20, 0x09, 0x0A, 0x0B, 0x0C, 0x0D] : List Int)) := by
  obtain ⟨rest, h1, h2⟩ := leadingSpace_split (t.drop k)
  refine ⟨leadingSpace (t.drop k), rest, h1, SkipWhitespace_cstr t k hk, ?_, ?_⟩
  · intro c hc
    exact (isSpace_iff_mem c).1 (leadingSpace_all _ c hc)
  · rcases h2 with h | ⟨x, tail, hx, hns⟩
    · exact Or.inl h
    · exact Or.inr ⟨x, tail, hx, fun h => hns ((isSpace_iff_mem x).2 h)⟩

/-- Witness of C5: in `"a \t\nb"` from offset 1 the three bytes of white space
are skipped. -/
theorem SkipWhitespace_spec_witness :
    1 ≤ [97, 32, 9, 10, 98].length ∧ SkipWhitespace (cstr [97, 32, 9, 10, 98]) 1 = .ok 4 ∧
      ∃ w rest, List.drop 1 [97, 32, 9, 10, 98] = w ++ rest ∧
        SkipWhitespace (cstr [97, 32, 9, 10, 98]) 1 = .ok (1 + w.length) ∧
        (∀ c ∈ w, c ∈ ([0x20, 0x09, 0x0A, 0x0B, 0x0C, 0x0D] : List Int)) ∧
        (rest = [] ∨
          ∃ x tail, rest = x :: tail ∧
            x ∉ ([0x20, 0x09, 0x0A, 0x0B, 0x0C, 0x0D] : List Int)) :=
  ⟨by decide, by decide, SkipWhitespace_spec [97, 32, 9, 10, 98] 1 (by decide)⟩

/-- The pointer `SkipWhitespace` returns on a C string is one it leaves in place. -/
theorem SkipWhitespace_cstr_fixed (t : List Int) (k : Nat) (hk : k ≤ t.length) :
    SkipWhitespace (cstr t) (k + (leadingSpace (t.drop k)).length) =
      .ok (k + (leadingSpace (t.drop k)).length) := by
  have hle : (leadingSpace (t.drop k)).length ≤ t.length - k := by
    have := leadingSpace_length_le (t.drop k)
    simpa using this
  rw [SkipWhitespace_cstr t _ (by omega), ← List.drop_drop, leadingSpace_drop]
  rfl

/-- C6: `SkipWhitespace` is idempotent.  At every pointer `k` into a C string
it returns a pointer `r`, and applied to `r` it returns `r` again. -/
theorem SkipWhitespace_idempotent (t : List Int) (k : Nat) (hk : k ≤ t.length) :
    ∃ r, SkipWhitespace (cstr t) k = .ok r ∧ SkipWhitespace (cstr t) r = .ok r ∧
      (SkipWhitespace (cstr t) k).bind (SkipWhitespace (cstr t)) = SkipWhitespace (cstr t) k := by
  have h2 := SkipWhitespace_cstr_fixed t k hk
  refine ⟨k + (leadingSpace (t.drop k)).length, SkipWhitespace_cstr t k hk, h2, ?_⟩
  rw [SkipWhitespace_cstr t k hk]
  exact h2

/-- Witness of C6: `"  x"` from its start. -/
theorem SkipWhitespace_idempotent_witness :
    0 ≤ [32, 32, 120].length ∧
      ∃ r, SkipWhitespace (cstr [32, 32, 120]) 0 = .ok r ∧
        SkipWhitespace (cstr [32, 32, 120]) r = .ok r ∧
        (SkipWhitespace (cstr [32, 32, 120]) 0).bind (SkipWhitespace (cstr [32, 32, 120])) =
          SkipWhitespace (cstr [32, 32, 120]) 0 :=
  ⟨by decide, SkipWhitespace_idempotent [32, 32, 120] 0 (by decide)⟩

/-! ## Number conversion -/

/-- Line 43 taken: the end pointer is the start pointer or null. -/
theorem ConvertStringToFloat_null {α : Type} (strtod : List Int → Nat → α × Option Nat)
    (mem : List Int) (s : Nat) (out : α)
    (h : (strtod mem s).2 = some s ∨ (strtod mem s).2 = none) :
    ConvertStringToFloat strtod mem s out = .ok (none, out) := by
  unfold ConvertStringToFloat
  rcases hst : strtod mem s with ⟨v, sn⟩
  rw [hst] at h
  rcases h with h | h
  · simp only at h
    subst h
    simp
  · simp only at h
    subst h
    rfl

/-- Lines 47-48 reached: the end pointer differs from the start pointer. -/
theorem ConvertStringToFloat_some {α : Type} (strtod : List Int → Nat → α × Option Nat)
    (mem : List Int) (s : Nat) (out : α) (e : Nat) (he : (strtod mem s).2 = some e)
    (hne : e ≠ s) :
    ConvertStringToFloat strtod mem s out =
      (SkipWhitespace mem e).map (fun r => (some r, (strtod mem s).1)) := by
  unfold ConvertStringToFloat
  rcases hst : strtod mem s with ⟨v, sn⟩
  rw [hst] at he
  simp only at he
  subst he
  have hse : ¬ s = e := fun h => hne h.symm
  simp only [hse, if_false]
  cases SkipWhitespace mem e <;> rfl

theorem ConvertStringToFloat_cstr {α : Type} (strtod : List Int → Nat → α × Option Nat)
    (t : List Int) (s : Nat) (out : α) (e : Nat) (he : (strtod (cstr t) s).2 = some e)
    (hne : e ≠ s) (hle : e ≤ t.length) :
    ConvertStringToFloat strtod (cstr t) s out =
      .ok (some (e + (leadingSpace (t.drop e)).length), (strtod (cstr t) s).1) := by
  rw [ConvertStringToFloat_some strtod (cstr t) s out e he hne, SkipWhitespace_cstr t e hle]
  rfl

/-- C7: whatever `strtod` is, `ConvertStringToFloat` returns `NULL` exactly when
the end pointer `strtod` stores equals the start pointer or is null, and then
the output cell keeps its content; otherwise the cell receives the value
`strtod` returned and the function returns `SkipWhitespace` of the end
pointer, which on a C string is the pointer behind the white space that
follows the end pointer. -/
theorem ConvertStringToFloat_spec {α : Type} (strtod : List Int → Nat → α × Option Nat)
    (mem : List Int) (s : Nat) (out : α) :
    ((∃ v, ConvertStringToFloat strtod mem s out = .ok (none, v)) ↔
      ((strtod mem s).2 = some s ∨ (strtod mem s).2 = none)) ∧
    (((strtod mem s).2 = some s ∨ (strtod mem s).2 = none) →
      ConvertStringToFloat strtod mem s out = .ok (none, out)) ∧
    (∀ e, (strtod mem s).2 = some e → e ≠ s →
      ConvertStringToFloat strtod mem s out =
        (SkipWhitespace mem e).map (fun r => (some r, (strtod mem s).1))) ∧
    (∀ t e, mem = cstr t → (strtod mem s).2 = some e → e ≠ s → e ≤ t.length →
      ConvertStringToFloat strtod mem s out =
        .ok (some (e + (leadingSpace (t.drop e)).length), (strtod mem s).1)) := by
  refine ⟨⟨?_, fun h => ⟨out, ConvertStringToFloat_null strtod mem s out h⟩⟩,
    ConvertStringToFloat_null strtod mem s out, ConvertStringToFloat_some strtod mem s out, ?_⟩
  · rintro ⟨v, hv⟩
    rcases hsn : (strtod mem s).2 with _ | e
    · exact Or.inr rfl
    · by_cases hes : e = s
      · exact Or.inl (by rw [hes])
      · rw [ConvertStringToFloat_some strtod mem s out e hsn hes] at hv
        cases hsk : SkipWhitespace mem e with
        | ok r => rw [hsk] at hv; simp [Result.map] at hv
        | fault f => rw [hsk] at hv; simp [Result.map] at hv
  · intro t e hmem he hne hle
    subst hmem
    exact ConvertStringToFloat_cstr strtod t s out e he hne hle

/-- Instance of C7: with a one-digit `strtod`, `"x"` gives `NULL` and leaves
the cell alone, `"7 x"` stores 7 and returns the pointer to `'x'`. -/
theorem ConvertStringToFloat_spec_witness :
    ConvertStringToFloat oneDigit (cstr [120]) 0 5 = .ok (none, 5) ∧
      ConvertStringToFloat oneDigit (cstr [55, 32, 120]) 0 5 = .ok (some 2, 7) :=
  ⟨(ConvertStringToFloat_spec oneDigit (cstr [120]) 0 5).2.1 (by decide),
    ((ConvertStringToFloat_spec oneDigit (cstr [55, 32, 120]) 0 5).2.2.1 1
      (by decide) (by decide)).trans (by decide)⟩

/-- C8: let `strtod` store end pointers that lie in the C string at or behind
the start pointer.  Whenever `ConvertStringToFloat` returns a pointer `r`, the
end pointer `e` of the literal lies strictly behind the start, `r` lies at or
behind `e` and strictly behind the start, within the string, and the byte at
`r` is the terminator or a character that is no white space (so
`SkipWhitespace` leaves `r` where it is): a second call starts behind every
character of the literal. -/
theorem ConvertStringToFloat_cursor {α : Type} (strtod : List Int → Nat → α × Option Nat)
    (t : List Int) (s : Nat) (out v : α) (r : Nat)
    (hstrtod : ∀ e, (strtod (cstr t) s).2 = some e → s ≤ e ∧ e ≤ t.length)
    (hret : ConvertStringToFloat strtod (cstr t) s out = .ok (some r, v)) :
    ∃ e, (strtod (cstr t) s).2 = some e ∧ s < e ∧ e ≤ r ∧ s < r ∧ r ≤ t.length ∧
      v = (strtod (cstr t) s).1 ∧
      (∃ x, (cstr t)[r]? = some x ∧ ¬ IsSpace x ∧ (x = 0 ∨ x ∈ t)) ∧
      SkipWhitespace (cstr t) r = .ok r := by
  rcases hsn : (strtod (cstr t) s).2 with _ | e
  · rw [ConvertStringToFloat_null strtod (cstr t) s out (Or.inr hsn)] at hret
    simp at hret
  · by_cases hes : e = s
    · rw [ConvertStringToFloat_null strtod (cstr t) s out (Or.inl (by rw [hsn, hes]))] at hret
      simp at hret
    · obtain ⟨hse, het⟩ := hstrtod e hsn
      rw [ConvertStringToFloat_cstr strtod t s out e hsn hes het] at hret
      simp only [Result.ok.injEq, Prod.mk.injEq, Option.some.injEq] at hret
      obtain ⟨hr, hv⟩ := hret
      have hlen : (leadingSpace (t.drop e)).length ≤ t.length - e := by
        have := leadingSpace_length_le (t.drop e)
        simpa using this
      have hlt : s < e := lt_of_le_of_ne hse (fun h => hes h.symm)
      refine ⟨e, rfl, hlt, by omega, by omega, by omega, hv.symm, ?_, ?_⟩
      · obtain ⟨x, hget, hns, hmem⟩ := byte_after_leadingSpace (t.drop e)
        refine ⟨x, ?_, hns, ?_⟩
        · rw [← hr, ← List.getElem?_drop, cstr_drop t e het]
          exact hget
        · rcases hmem with ⟨h0, _⟩ | h
          · exact Or.inl h0
          · exact Or.inr (List.mem_of_mem_drop h)
      · rw [← hr]
        exact SkipWhitespace_cstr_fixed t e het

/-- Witness of C8: on `"7  x"` with a one-digit `strtod` the call returns the
pointer 3, behind the digit and the two spaces. -/
theorem ConvertStringToFloat_cursor_witness :
    (∀ e, (oneDigit (cstr [55, 32, 32, 120]) 0).2 = some e →
        0 ≤ e ∧ e ≤ [55, 32, 32, 120].length) ∧
      ConvertStringToFloat oneDigit (cstr [55, 32, 32, 120]) 0 0 = .ok (some 3, 7) ∧
      ∃ e, (oneDigit (cstr [55, 32, 32, 120]) 0).2 = some e ∧ 0 < e ∧ e ≤ 3 ∧ 0 < 3 ∧
        3 ≤ [55, 32, 32, 120].length ∧ (7 : Int) = (oneDigit (cstr [55, 32, 32, 120]) 0).1 ∧
        (∃ x, (cstr [55, 32, 32, 120])[3]? = some x ∧ ¬ IsSpace x ∧
          (x = 0 ∨ x ∈ [55, 32, 32, 120])) ∧
        SkipWhitespace (cstr [55, 32, 32, 120]) 3 = .ok 3 :=
  have h1 : ∀ e, (oneDigit (cstr [55, 32, 32, 120]) 0).2 = some e →
      0 ≤ e ∧ e ≤ [55, 32, 32, 120].length := by
    intro e he
    have h : (oneDigit (cstr [55, 32, 32, 120]) 0).2 = some 1 := by decide
    rw [h] at he
    simp only [Option.some.injEq] at he
    subst he
    decide
  have h2 : ConvertStringToFloat oneDigit (cstr [55, 32, 32, 120]) 0 0 = .ok (some 3, 7) := by
    decide
  ⟨h1, h2, ConvertStringToFloat_cursor oneDigit [55, 32, 32, 120] 0 0 7 3 h1 h2⟩

/-! ## Pointers stay inside their strings -/

/-- The second loop on a C string returns a pointer into it. -/
theorem trailView_cstr (t : List Int) (s : Nat) :
    trailView (cstr t) s = .ok (some (s + (leadingSpace t).length)) := by
  rw [trailView_eq, skipView_cstr]
  rfl

/-- The first loop on two NUL-terminated buffers never reads outside them, and
a pointer it returns lies in the input, terminator included. -/
theorem compareView_safe (lt mt : List Int) (s : Nat) :
    ∃ res, compareView (cstr lt) (cstr mt) s = .ok res ∧
      ∀ r, res = some r → s ≤ r ∧ r ≤ s + mt.length := by
  induction lt generalizing mt s with
  | nil =>
    refine ⟨some (s + (leadingSpace mt).length), ?_, ?_⟩
    · rw [← trailView_cstr mt s]
      cases mt with
      | nil => exact compare_end [] [] s 0
      | cons m ms => exact compare_end [] (cstr ms) s m
    · intro r hr
      have := leadingSpace_length_le mt
      simp only [Option.some.injEq] at hr
      omega
  | cons l ls ih =>
    by_cases hl0 : l = 0
    · subst hl0
      refine ⟨some (s + (leadingSpace mt).length), ?_, ?_⟩
      · rw [← trailView_cstr mt s]
        cases mt with
        | nil => exact compare_end (cstr ls) [] s 0
        | cons m ms => exact compare_end (cstr ls) (cstr ms) s m
      · intro r hr
        have := leadingSpace_length_le mt
        simp only [Option.some.injEq] at hr
        omega
    · cases mt with
      | nil =>
        refine ⟨none, ?_, by simp⟩
        have hf : foldCase 0 ≠ foldCase l := by
          intro h
          exact hl0 ((foldCase_eq_zero l).1 h.symm)
        exact compare_step_ne (cstr ls) [] s 0 l hl0 hf
      | cons m ms =>
        by_cases hf : foldCase m = foldCase l
        · obtain ⟨res, h1, h2⟩ := ih ms (s + 1)
          refine ⟨res, ?_, ?_⟩
          · rw [← h1]
            exact compare_step_eq (cstr ls) (cstr ms) s m l hl0 hf
          · intro r hr
            have := h2 r hr
            simp only [List.length_cons]
            omega
        · exact ⟨none, compare_step_ne (cstr ls) (cstr ms) s m l hl0 hf, by simp⟩

theorem terminatorAt_safe (t : List Int) (r : Nat) (hr : r ≤ t.length) :
    ∃ b, terminatorAt (cstr t) r = .ok b := by
  unfold terminatorAt
  rw [cstr_drop t r hr]
  cases t.drop r with
  | nil => exact ⟨true, by simp [cstr]⟩
  | cons c rest =>
    by_cases hc : (0 : Int) ≠ c
    · exact ⟨false, by simp [cstr, hc]⟩
    · exact ⟨true, by simp [cstr, hc]⟩

/-- C9: for NUL-terminated input and label and pointers into them, terminators
included, no run of `SkipWhitespace`, `IsStringEqualsCaseInsensitive` or
`IsStringEqualsForgiving` reads outside a buffer: each returns (a build that
checks assertions may stop at the entry assertion instead), and a returned
pointer lies between the start pointer and the terminator of the input.  No
length is assumed: the label may be longer than the input. -/
theorem cursor_validity (mt lt : List Int) (sMain sLabel : Nat)
    (hm : sMain ≤ mt.length) (hl : sLabel ≤ lt.length) :
    (∃ r, SkipWhitespace (cstr mt) sMain = .ok r ∧ sMain ≤ r ∧ r ≤ mt.length) ∧
    (∃ res, IsStringEqualsCaseInsensitive false (cstr mt) sMain (cstr lt) sLabel = .ok res ∧
      (∀ r, res = some r → sMain ≤ r ∧ r ≤ mt.length) ∧
      (IsStringEqualsCaseInsensitive true (cstr mt) sMain (cstr lt) sLabel = .ok res ∨
        IsStringEqualsCaseInsensitive true (cstr mt) sMain (cstr lt) sLabel =
          .fault .assertion)) ∧
    (∃ b, IsStringEqualsForgiving false (cstr mt) sMain (cstr lt) sLabel = .ok b ∧
      (IsStringEqualsForgiving true (cstr mt) sMain (cstr lt) sLabel = .ok b ∨
        IsStringEqualsForgiving true (cstr mt) sMain (cstr lt) sLabel = .fault .assertion)) := by
  have hlen : (leadingSpace (mt.drop sMain)).length ≤ mt.length - sMain := by
    have := leadingSpace_length_le (mt.drop sMain)
    simpa using this
  obtain ⟨res, h1, h2⟩ := compareView_safe (lt.drop sLabel) (mt.drop sMain) sMain
  have hb : ∀ r, res = some r → sMain ≤ r ∧ r ≤ mt.length := by
    intro r hr
    have := h2 r hr
    simp only [List.length_drop] at this
    omega
  have hF : IsStringEqualsCaseInsensitive false (cstr mt) sMain (cstr lt) sLabel = .ok res := by
    rw [IsStringEqualsCaseInsensitive_entry false mt lt sMain sLabel hm hl]
    simpa using h1
  have hT : IsStringEqualsCaseInsensitive true (cstr mt) sMain (cstr lt) sLabel = .ok res ∨
      IsStringEqualsCaseInsensitive true (cstr mt) sMain (cstr lt) sLabel =
        .fault .assertion := by
    rw [IsStringEqualsCaseInsensitive_entry true mt lt sMain sLabel hm hl]
    by_cases ha : EntryAssertion (firstByte (mt.drop sMain))
    · exact Or.inl (by simpa [ha] using h1)
    · exact Or.inr (by simp [ha])
  refine ⟨⟨_, SkipWhitespace_cstr mt sMain hm, by omega, by omega⟩, ⟨res, hF, hb, hT⟩, ?_⟩
  cases res with
  | none =>
    refine ⟨false, ?_, ?_⟩
    · rw [IsStringEqualsForgiving_eq, hF]
    · rcases hT with h | h
      · exact Or.inl (by rw [IsStringEqualsForgiving_eq, h])
      · exact Or.inr (by rw [IsStringEqualsForgiving_eq, h])
  | some r =>
    obtain ⟨b, hterm⟩ := terminatorAt_safe mt r (hb r rfl).2
    refine ⟨b, ?_, ?_⟩
    · rw [IsStringEqualsForgiving_eq, hF]
      exact hterm
    · rcases hT with h | h
      · exact Or.inl (by rw [IsStringEqualsForgiving_eq, h]; exact hterm)
      · exact Or.inr (by rw [IsStringEqualsForgiving_eq, h])

/-- Witness of C9: the input `"ab"` against the longer label `"abc"`. -/
theorem cursor_validity_witness :
    0 ≤ [97, 98].length ∧ 0 ≤ [97, 98, 99].length ∧
      IsStringEqualsCaseInsensitive false (cstr [97, 98]) 0 (cstr [97, 98, 99]) 0 = .ok none ∧
      ∃ res, IsStringEqualsCaseInsensitive false (cstr [97, 98]) 0 (cstr [97, 98, 99]) 0 =
          .ok res ∧
        (∀ r, res = some r → 0 ≤ r ∧ r ≤ [97, 98].length) ∧
        (IsStringEqualsCaseInsensitive true (cstr [97, 98]) 0 (cstr [97, 98, 99]) 0 = .ok res ∨
          IsStringEqualsCaseInsensitive true (cstr [97, 98]) 0 (cstr [97, 98, 99]) 0 =
            .fault .assertion) :=
  ⟨by decide, by decide, by decide,
    (cursor_validity [97, 98] [97, 98, 99] 0 0 (by decide) (by decide)).2.1⟩

/-! ## The empty label -/

/-- C10: against the empty label `IsStringEqualsCaseInsensitive` returns a
pointer for every input, never `NULL`: the pointer behind the leading white
space of the input, which is the input pointer itself when the input does not
begin with white space.  (In a build that checks assertions this holds of the
inputs that pass the entry assertion.) -/
theorem IsStringEqualsCaseInsensitive_empty_label (checked : Bool) (input : List Int)
    (ha : AssertionPasses checked input) :
    IsStringEqualsCaseInsensitive checked (cstr input) 0 (cstr []) 0 =
        .ok (some (leadingSpace input).length) ∧
      (¬ IsSpace (firstByte input) →
        IsStringEqualsCaseInsensitive checked (cstr input) 0 (cstr []) 0 = .ok (some 0)) := by
  have hl : NulFree [] := by intro c hc; simp at hc
  have hm : LabelMatches input [] := by simp [LabelMatches]
  have h := IsStringEqualsCaseInsensitive_cstr checked input [] hl ha
  rw [if_pos hm] at h
  simp only [List.length_nil, List.drop_zero, Nat.zero_add] at h
  refine ⟨h, ?_⟩
  intro hns
  rw [h]
  cases input with
  | nil => rfl
  | cons a rest =>
    have : ¬ IsSpace a := hns
    simp [leadingSpace_cons, this]

/-- Witness of C10: the inputs `"rmse"` (checked build) and `" x"` (build
without assertions) against the empty label. -/
theorem IsStringEqualsCaseInsensitive_empty_label_witness :
    AssertionPasses true [114, 109, 115, 101] ∧
      IsStringEqualsCaseInsensitive true (cstr [114, 109, 115, 101]) 0 (cstr []) 0 =
        .ok (some 0) ∧
      AssertionPasses false [32, 120] ∧
      IsStringEqualsCaseInsensitive false (cstr [32, 120]) 0 (cstr []) 0 = .ok (some 1) :=
  ⟨by decide,
    (IsStringEqualsCaseInsensitive_empty_label true [114, 109, 115, 101] (by decide)).2
      (by decide),
    by decide,
    (IsStringEqualsCaseInsensitive_empty_label false [32, 120] (by decide)).1⟩

/-! ## Case folding -/

theorem caseFlip_isSpace {a b : Int} (h : CaseFlip a b) : IsSpace a ↔ IsSpace b := by
  unfold CaseFlip at h
  unfold IsSpace
  omega

theorem caseFlip_zero {a b : Int} (h : CaseFlip a b) : a = 0 ↔ b = 0 := by
  unfold CaseFlip at h
  omega

theorem caseVariant_cstr {a b : List Int} (h : CaseVariant a b) : CaseVariant (cstr a) (cstr b) := by
  induction h with
  | nil => exact List.Forall₂.cons (Or.inl rfl) List.Forall₂.nil
  | cons hab _ ih => exact List.Forall₂.cons hab ih

theorem caseVariant_of_map (a b : List Int) (h : a.map foldCase = b.map foldCase) :
    CaseVariant a b := by
  induction a generalizing b with
  | nil =>
    cases b with
    | nil => exact List.Forall₂.nil
    | cons y ys => simp at h
  | cons x xs ih =>
    cases b with
    | nil => simp at h
    | cons y ys =>
      simp only [List.map_cons, List.cons.injEq] at h
      exact List.Forall₂.cons ((caseFlip_iff x y).2 h.1) (ih ys h.2)

/-- The second loop does not see the case of letters. -/
theorem skip_flip {ma ma2 : List Int} (h : List.Forall₂ CaseFlip ma2 ma) (s : Nat) (m m2 : Int)
    (hm : CaseFlip m2 m) :
    IsStringEqualsCaseInsensitive.skip ma2 s m2 = IsStringEqualsCaseInsensitive.skip ma s m := by
  induction h generalizing s m m2 with
  | nil =>
    unfold IsStringEqualsCaseInsensitive.skip
    simp only [← isSpace_iff, caseFlip_isSpace hm]
  | @cons x y xs ys hxy _ ih =>
    unfold IsStringEqualsCaseInsensitive.skip
    simp only [← isSpace_iff, caseFlip_isSpace hm]
    split
    · exact ih (s + 1) y x hxy
    · rfl

/-- The first loop does not see the case of letters, in the input or in the label. -/
theorem compare_flip {la la2 : List Int} (hl : List.Forall₂ CaseFlip la2 la) :
    ∀ {ma ma2 : List Int}, List.Forall₂ CaseFlip ma2 ma → ∀ (s : Nat) (m m2 l l2 : Int),
      CaseFlip m2 m → CaseFlip l2 l →
      IsStringEqualsCaseInsensitive.compare la2 ma2 s m2 l2 =
        IsStringEqualsCaseInsensitive.compare la ma s m l := by
  induction hl with
  | nil =>
    intro ma ma2 hma s m m2 l l2 hm hll
    by_cases hl0 : l = 0
    · have hl20 : l2 = 0 := (caseFlip_zero hll).2 hl0
      subst hl0
      subst hl20
      rw [compare_end, compare_end]
      exact skip_flip hma s m m2 hm
    · have hl20 : l2 ≠ 0 := fun h => hl0 ((caseFlip_zero hll).1 h)
      by_cases hf : foldCase m = foldCase l
      · have hf2 : foldCase m2 = foldCase l2 := by
          rw [(caseFlip_iff _ _).1 hm, (caseFlip_iff _ _).1 hll]
          exact hf
        rw [compare_step_eq _ _ _ _ _ hl0 hf, compare_step_eq _ _ _ _ _ hl20 hf2]
        cases hma <;> rfl
      · have hf2 : foldCase m2 ≠ foldCase l2 := by
          rw [(caseFlip_iff _ _).1 hm, (caseFlip_iff _ _).1 hll]
          exact hf
        rw [compare_step_ne _ _ _ _ _ hl0 hf, compare_step_ne _ _ _ _ _ hl20 hf2]
  | @cons x y xs ys hxy _ ih =>
    intro ma ma2 hma s m m2 l l2 hm hll
    by_cases hl0 : l = 0
    · have hl20 : l2 = 0 := (caseFlip_zero hll).2 hl0
      subst hl0
      subst hl20
      rw [compare_end, compare_end]
      exact skip_flip hma s m m2 hm
    · have hl20 : l2 ≠ 0 := fun h => hl0 ((caseFlip_zero hll).1 h)
      by_cases hf : foldCase m = foldCase l
      · have hf2 : foldCase m2 = foldCase l2 := by
          rw [(caseFlip_iff _ _).1 hm, (caseFlip_iff _ _).1 hll]
          exact hf
        rw [compare_step_eq _ _ _ _ _ hl0 hf, compare_step_eq _ _ _ _ _ hl20 hf2]
        cases hma with
        | nil => rfl
        | @cons u v us vs huv hrest => exact ih hrest (s + 1) v u y x huv hxy
      · have hf2 : foldCase m2 ≠ foldCase l2 := by
          rw [(caseFlip_iff _ _).1 hm, (caseFlip_iff _ _).1 hll]
          exact hf
        rw [compare_step_ne _ _ _ _ _ hl0 hf, compare_step_ne _ _ _ _ _ hl20 hf2]

/-- `IsStringEqualsCaseInsensitive` does not see the case of letters, on any
two buffers and at any pointers. -/
theorem IsStringEqualsCaseInsensitive_flip (checked : Bool) (main main2 label label2 : List Int)
    (sMain sLabel : Nat) (hm : List.Forall₂ CaseFlip main2 main)
    (hl : List.Forall₂ CaseFlip label2 label) :
    IsStringEqualsCaseInsensitive checked main2 sMain label2 sLabel =
      IsStringEqualsCaseInsensitive checked main sMain label sLabel := by
  have hmd := List.forall₂_drop sMain hm
  have hld := List.forall₂_drop sLabel hl
  unfold IsStringEqualsCaseInsensitive
  revert hmd hld
  generalize List.drop sMain main2 = v2
  generalize List.drop sMain main = v
  generalize List.drop sLabel label2 = w2
  generalize List.drop sLabel label = w
  intro hmd hld
  cases hmd with
  | nil => rfl
  | @cons m2 m ma2 ma hmm hma =>
    have hsp : IsSpace m2 ↔ IsSpace m := caseFlip_isSpace hmm
    have hea : (0x20 ≠ m2 ∧ (m2 < 0x9 ∨ 0xd < m2)) ↔ (0x20 ≠ m ∧ (m < 0x9 ∨ 0xd < m)) := by
      have h1 := entryAssertion_iff m2
      have h2 := entryAssertion_iff m
      unfold EntryAssertion at h1 h2
      rw [h1, h2, hsp]
    simp only [hea]
    split
    · rfl
    · cases hld with
      | nil => rfl
      | @cons l2 l la2 la hll hla => exact compare_flip hla hma sMain m m2 l l2 hmm hll

/-- A returned pointer means that the input starts with the label up to case. -/
theorem labelMatches_of_some (checked : Bool) (input label : List Int) (hl : NulFree label)
    (r : Nat)
    (h : IsStringEqualsCaseInsensitive checked (cstr input) 0 (cstr label) 0 = .ok (some r)) :
    LabelMatches input label := by
  rw [IsStringEqualsCaseInsensitive_entry checked input label 0 0 (Nat.zero_le _)
    (Nat.zero_le _)] at h
  simp only [List.drop_zero] at h
  split at h
  · simp at h
  · rw [compareView_cstr label input 0 hl] at h
    by_contra hm
    rw [if_neg hm] at h
    simp at h

/-- C13: case folding is applied to both sides and to ASCII letters only.  The
result of `IsStringEqualsCaseInsensitive` does not change when letters of the
input or of the label change case, and a returned pointer means that each
character of the label stands in the input, equal or as the same letter in the
other case; so `'@'` does not match the backquote and `'['` does not match the
opening brace, 32 apart as they are. -/
theorem IsStringEqualsCaseInsensitive_case_symmetric (checked : Bool) (s s2 L L2 : List Int)
    (hs : CaseVariant s2 s) (hL : CaseVariant L2 L) :
    IsStringEqualsCaseInsensitive checked (cstr s2) 0 (cstr L2) 0 =
      IsStringEqualsCaseInsensitive checked (cstr s) 0 (cstr L) 0 ∧
    (NulFree L → ∀ r, IsStringEqualsCaseInsensitive checked (cstr s) 0 (cstr L) 0 = .ok (some r) →
      CaseVariant (s.take L.length) L) ∧
    IsStringEqualsCaseInsensitive checked (cstr [64]) 0 (cstr [96]) 0 = .ok none ∧
    IsStringEqualsCaseInsensitive checked (cstr [91]) 0 (cstr [123]) 0 = .ok none := by
  refine ⟨?_, ?_, ?_, ?_⟩
  · exact IsStringEqualsCaseInsensitive_flip checked (cstr s) (cstr s2) (cstr L) (cstr L2) 0 0
      (caseVariant_cstr hs) (caseVariant_cstr hL)
  · intro hn r hr
    exact caseVariant_of_map _ _ (labelMatches_of_some checked s L hn r hr).2
  · cases checked <;> decide
  · cases checked <;> decide

/-- Witness of C13: `"RmSe x"` against `"rMsE"` gives what `"rmse x"` against
`"RMSE"` gives, the pointer to `'x'`. -/
theorem IsStringEqualsCaseInsensitive_case_symmetric_witness :
    CaseVariant [82, 109, 83, 101, 32, 120] [114, 109, 115, 101, 32, 120] ∧
      CaseVariant [114, 77, 115, 69] [82, 77, 83, 69] ∧
      IsStringEqualsCaseInsensitive true (cstr [82, 109, 83, 101, 32, 120]) 0
        (cstr [114, 77, 115, 69]) 0 = .ok (some 5) :=
  have h1 : CaseVariant [82, 109, 83, 101, 32, 120] [114, 109, 115, 101, 32, 120] := by
    unfold CaseVariant; decide
  have h2 : CaseVariant [114, 77, 115, 69] [82, 77, 83, 69] := by
    unfold CaseVariant; decide
  ⟨h1, h2,
    (IsStringEqualsCaseInsensitive_case_symmetric true [114, 109, 115, 101, 32, 120]
      [82, 109, 83, 101, 32, 120] [82, 77, 83, 69] [114, 77, 115, 69] h1 h2).1.trans
      (by decide)⟩

/-! ## Bytes outside ASCII -/

theorem leadingSpace_of_head {u : List Int} {c : Int} (h : u[0]? = some c) (hc : ¬ IsSpace c) :
    leadingSpace u = [] := by
  cases u with
  | nil => rfl
  | cons a rest =>
    simp only [List.getElem?_cons_zero, Option.some.injEq] at h
    subst h
    simp [leadingSpace_cons, hc]

/-- `SkipWhitespace` stays at a byte that is no white space. -/
theorem SkipWhitespace_stays (t : List Int) (k : Nat) (c : Int) (h : t[k]? = some c)
    (hc : ¬ IsSpace c) : SkipWhitespace (cstr t) k = .ok k := by
  have hk : k < t.length := by
    by_contra hlt
    rw [List.getElem?_eq_none (by omega)] at h
    simp at h
  have h0 : (t.drop k)[0]? = some c := by
    rw [List.getElem?_drop]
    simpa using h
  rw [SkipWhitespace_cstr t k (by omega), leadingSpace_of_head h0 hc]
  rfl

/-- C14 as stated fails: the input `C3 A9` holds bytes outside ASCII at
positions 0 and 1 of the label `C3 A9`, and `IsStringEqualsCaseInsensitive`
returns the pointer behind them, not `NULL`; the same with the bytes as
values of a signed `char`. -/
theorem IsStringEqualsCaseInsensitive_nonAscii_counterexample :
    NonAscii 0xC3 ∧ (0x80 : Int) ≤ 0xC3 ∧ ([0xC3, 0xA9] : List Int)[0]? = some 0xC3 ∧
      0 < [(0xC3 : Int), 0xA9].length ∧
      IsStringEqualsCaseInsensitive false (cstr [0xC3, 0xA9]) 0 (cstr [0xC3, 0xA9]) 0 =
        .ok (some 2) ∧
      IsStringEqualsCaseInsensitive true (cstr [0xC3, 0xA9]) 0 (cstr [0xC3, 0xA9]) 0 =
        .ok (some 2) ∧
      IsStringEqualsCaseInsensitive false (cstr [0xC3 - 256, 0xA9 - 256]) 0
        (cstr [0xC3 - 256, 0xA9 - 256]) 0 = .ok (some 2) :=
  ⟨by decide, by decide, by decide, by decide, by decide, by decide, by decide⟩

/-- C14 as the code has it: a byte `c` outside ASCII is compared as it is.  It
is not folded, it is no white space for either loop, `SkipWhitespace` returns
a pointer to it unchanged, and in the input it matches no label character but
the identical byte: when the label holds another byte at its position,
`IsStringEqualsCaseInsensitive` returns `NULL` (in a build that checks
assertions: on the inputs that pass the entry assertion). -/
theorem nonAscii_byte (c : Int) (hc : NonAscii c) :
    foldCase c = c ∧ ¬ IsSpace c ∧
    (∀ after s, SkipWhitespace.loop after s c = .ok s) ∧
    (∀ after s, IsStringEqualsCaseInsensitive.skip after s c = .ok (some s)) ∧
    (∀ (t : List Int) (k : Nat), t[k]? = some c → SkipWhitespace (cstr t) k = .ok k) ∧
    (∀ la ma s l, l ≠ 0 → l ≠ c → IsStringEqualsCaseInsensitive.compare la ma s c l = .ok none) ∧
    (∀ (checked : Bool) (input label : List Int) (i : Nat) (l : Int),
      NulFree label → AssertionPasses checked input →
      input[i]? = some c → label[i]? = some l → l ≠ c →
      IsStringEqualsCaseInsensitive checked (cstr input) 0 (cstr label) 0 = .ok none) := by
  have hfold : foldCase c = c := by
    unfold NonAscii at hc
    unfold foldCase
    split <;> omega
  have hsp : ¬ IsSpace c := by
    unfold NonAscii at hc
    unfold IsSpace
    omega
  have hne : ∀ l : Int, l ≠ c → foldCase c ≠ foldCase l := by
    intro l hl
    rw [hfold]
    unfold NonAscii at hc
    unfold foldCase
    split <;> omega
  have hloop : ∀ after s, SkipWhitespace.loop after s c = .ok s := by
    intro after s
    unfold SkipWhitespace.loop
    simp only [← isSpace_iff, hsp, if_false]
  refine ⟨hfold, hsp, hloop, ?_, ?_, ?_, ?_⟩
  · intro after s
    rw [skip_eq_loop, hloop]
    rfl
  · intro t k h
    exact SkipWhitespace_stays t k c h hsp
  · intro la ma s l hl0 hlc
    exact compare_step_ne la ma s c l hl0 (hne l hlc)
  · intro checked input label i l hl ha hi hli hlc
    rw [IsStringEqualsCaseInsensitive_cstr checked input label hl ha]
    have hm : ¬ LabelMatches input label :=
      (not_labelMatches_iff input label).2 (Or.inr ⟨i, c, l, hi, hli, hne l hlc⟩)
    rw [if_neg hm]

/-- Witness of C14 as amended: the byte `E9` in `"caf\xE9"` against the label
`"cafe"`. -/
theorem nonAscii_byte_witness :
    NonAscii 0xE9 ∧
      IsStringEqualsCaseInsensitive true (cstr [99, 97, 102, 0xE9]) 0
        (cstr [99, 97, 102, 101]) 0 = .ok none ∧
      SkipWhitespace (cstr [99, 97, 102, 0xE9]) 3 = .ok 3 :=
  ⟨by decide,
    (nonAscii_byte 0xE9 (by decide)).2.2.2.2.2.2 true [99, 97, 102, 0xE9] [99, 97, 102, 101]
      3 101 (by decide) (by decide) (by decide) (by decide) (by decide),
    (nonAscii_byte 0xE9 (by decide)).2.2.2.2.1 [99, 97, 102, 0xE9] 3 (by decide)⟩

/-! ## Returned pointers are white-space normalised -/

/-- A pointer the loop of `SkipWhitespace` returns designates a byte that is no
white space, at or behind the start. -/
theorem loop_normalised (after : List Int) (s : Nat) (c : Int) (r : Nat)
    (h : SkipWhitespace.loop after s c = .ok r) :
    s ≤ r ∧ ∃ x, (c :: after)[r - s]? = some x ∧ ¬ IsSpace x := by
  induction after generalizing s c with
  | nil =>
    unfold SkipWhitespace.loop at h
    simp only [← isSpace_iff] at h
    split at h
    · simp at h
    · rename_i hc
      simp only [Result.ok.injEq] at h
      subst h
      exact ⟨le_refl _, c, by simp, hc⟩
  | cons a rest ih =>
    unfold SkipWhitespace.loop at h
    simp only [← isSpace_iff] at h
    split at h
    · obtain ⟨hle, x, hx, hns⟩ := ih (s + 1) a h
      refine ⟨by omega, x, ?_, hns⟩
      have : r - s = (r - (s + 1)) + 1 := by omega
      rw [this, List.getElem?_cons_succ]
      exact hx
    · rename_i hc
      simp only [Result.ok.injEq] at h
      subst h
      exact ⟨le_refl _, c, by simp, hc⟩

theorem getElem?_of_drop (mem : List Int) (s n : Nat) (x : Int)
    (h : (mem.drop s)[n]? = some x) : mem[s + n]? = some x := by
  rw [List.getElem?_drop] at h
  exact h

theorem SkipWhitespace_normalised (mem : List Int) (s r : Nat)
    (h : SkipWhitespace mem s = .ok r) :
    s ≤ r ∧ ∃ x, mem[r]? = some x ∧ ¬ IsSpace x := by
  unfold SkipWhitespace at h
  cases hd : mem.drop s with
  | nil => rw [hd] at h; simp at h
  | cons c after =>
    rw [hd] at h
    obtain ⟨hle, x, hx, hns⟩ := loop_normalised after s c r h
    refine ⟨hle, x, ?_, hns⟩
    rw [← hd] at hx
    have := getElem?_of_drop mem s (r - s) x hx
    rwa [show s + (r - s) = r by omega] at this

theorem trailView_normalised (view : List Int) (s r : Nat)
    (h : trailView view s = .ok (some r)) :
    s ≤ r ∧ ∃ x, view[r - s]? = some x ∧ ¬ IsSpace x := by
  cases view with
  | nil => simp [trailView] at h
  | cons c after =>
    have h2 : (SkipWhitespace.loop after s c).map some = .ok (some r) := by
      rw [← skip_eq_loop]
      exact h
    cases hl : SkipWhitespace.loop after s c with
    | fault f => rw [hl] at h2; simp [Result.map] at h2
    | ok q =>
      rw [hl] at h2
      simp only [Result.map, Result.ok.injEq, Option.some.injEq] at h2
      subst h2
      exact loop_normalised after s c q hl

/-- A pointer the first loop returns designates a byte of the input that is no
white space, at or behind the start; on any two buffers. -/
theorem compare_normalised (la : List Int) :
    ∀ (ma : List Int) (s : Nat) (m l : Int) (r : Nat),
      IsStringEqualsCaseInsensitive.compare la ma s m l = .ok (some r) →
      s ≤ r ∧ ∃ x, (m :: ma)[r - s]? = some x ∧ ¬ IsSpace x := by
  induction la with
  | nil =>
    intro ma s m l r h
    by_cases hl0 : l = 0
    · subst hl0
      rw [compare_end] at h
      exact trailView_normalised (m :: ma) s r h
    · by_cases hf : foldCase m = foldCase l
      · rw [compare_step_eq _ _ _ _ _ hl0 hf] at h
        cases ma <;> simp [compareView] at h
      · rw [compare_step_ne _ _ _ _ _ hl0 hf] at h
        simp at h
  | cons l2 rest ih =>
    intro ma s m l r h
    by_cases hl0 : l = 0
    · subst hl0
      rw [compare_end] at h
      exact trailView_normalised (m :: ma) s r h
    · by_cases hf : foldCase m = foldCase l
      · rw [compare_step_eq _ _ _ _ _ hl0 hf] at h
        cases ma with
        | nil => simp [compareView] at h
        | cons m2 ma2 =>
          obtain ⟨hle, x, hx, hns⟩ := ih ma2 (s + 1) m2 l2 r h
          refine ⟨by omega, x, ?_, hns⟩
          have : r - s = (r - (s + 1)) + 1 := by omega
          rw [this, List.getElem?_cons_succ]
          exact hx
      · rw [compare_step_ne _ _ _ _ _ hl0 hf] at h
        simp at h

theorem IsStringEqualsCaseInsensitive_normalised (checked : Bool) (main : List Int) (sMain : Nat)
    (label : List Int) (sLabel : Nat) (r : Nat)
    (h : IsStringEqualsCaseInsensitive checked main sMain label sLabel = .ok (some r)) :
    sMain ≤ r ∧ ∃ x, main[r]? = some x ∧ ¬ IsSpace x := by
  unfold IsStringEqualsCaseInsensitive at h
  cases hd : main.drop sMain with
  | nil => rw [hd] at h; simp at h
  | cons m ma =>
    rw [hd] at h
    simp only at h
    split at h
    · simp at h
    · cases hl : label.drop sLabel with
      | nil => rw [hl] at h; simp at h
      | cons l la =>
        rw [hl] at h
        obtain ⟨hle, x, hx, hns⟩ := compare_normalised la ma sMain m l r h
        refine ⟨hle, x, ?_, hns⟩
        rw [← hd] at hx
        have := getElem?_of_drop main sMain (r - sMain) x hx
        rwa [show sMain + (r - sMain) = r by omega] at this

theorem ConvertStringToFloat_normalised {α : Type} (strtod : List Int → Nat → α × Option Nat)
    (mem : List Int) (s : Nat) (out v : α) (r : Nat)
    (h : ConvertStringToFloat strtod mem s out = .ok (some r, v)) :
    ∃ x, mem[r]? = some x ∧ ¬ IsSpace x := by
  rcases hsn : (strtod mem s).2 with _ | e
  · rw [ConvertStringToFloat_null strtod mem s out (Or.inr hsn)] at h
    simp at h
  · by_cases hes : e = s
    · rw [ConvertStringToFloat_null strtod mem s out (Or.inl (by rw [hsn, hes]))] at h
      simp at h
    · rw [ConvertStringToFloat_some strtod mem s out e hsn hes] at h
      cases hsk : SkipWhitespace mem e with
      | fault f => rw [hsk] at h; simp [Result.map] at h
      | ok q =>
        rw [hsk] at h
        simp only [Result.map, Result.ok.injEq, Prod.mk.injEq, Option.some.injEq] at h
        obtain ⟨hq, _⟩ := h
        subst hq
        exact (SkipWhitespace_normalised mem e q hsk).2

/-- At a pointer to a byte that passes the entry assertion, the build that
checks assertions and the build that does not agree. -/
theorem IsStringEqualsCaseInsensitive_checked_eq (main : List Int) (r : Nat) (x : Int)
    (hx : main[r]? = some x) (ha : EntryAssertion x) (label : List Int) (sLabel : Nat) :
    IsStringEqualsCaseInsensitive true main r label sLabel =
      IsStringEqualsCaseInsensitive false main r label sLabel := by
  have hr : r < main.length := by
    by_contra hlt
    rw [List.getElem?_eq_none (by omega)] at hx
    simp at hx
  have hget : main[r] = x := by
    rw [List.getElem?_eq_getElem hr] at hx
    simpa using hx
  have hd : main.drop r = x :: main.drop (r + 1) := by
    rw [List.drop_eq_getElem_cons hr, hget]
  unfold IsStringEqualsCaseInsensitive
  rw [hd]
  have ha2 : 0x20 ≠ x ∧ (x < 0x9 ∨ 0xd < x) := ha
  simp [ha2]

/-- C15: every pointer a scanner function returns is white-space normalised.
On any buffer, the pointer returned by `SkipWhitespace`, by
`ConvertStringToFloat` when it is not `NULL`, and by
`IsStringEqualsCaseInsensitive` when it is not `NULL` designates a byte that
passes the entry assertion of `IsStringEqualsCaseInsensitive` (not `0x20`, not
in `0x09..0x0D`; the terminator is such a byte); on a C string
`SkipWhitespace` does return such a pointer; and at such a pointer the build
that checks the assertion runs as the build that does not. -/
theorem returned_pointer_normalised {α : Type} (strtod : List Int → Nat → α × Option Nat)
    (mem : List Int) (s r : Nat) (out v : α) :
    (SkipWhitespace mem s = .ok r → ∃ x, mem[r]? = some x ∧ EntryAssertion x) ∧
    (ConvertStringToFloat strtod mem s out = .ok (some r, v) →
      ∃ x, mem[r]? = some x ∧ EntryAssertion x) ∧
    (∀ checked label sLabel,
      IsStringEqualsCaseInsensitive checked mem s label sLabel = .ok (some r) →
      ∃ x, mem[r]? = some x ∧ EntryAssertion x) ∧
    (∀ (t : List Int) (k : Nat), k ≤ t.length →
      ∃ q x, SkipWhitespace (cstr t) k = .ok q ∧ (cstr t)[q]? = some x ∧ EntryAssertion x) ∧
    ((∃ x, mem[r]? = some x ∧ EntryAssertion x) → ∀ label sLabel,
      IsStringEqualsCaseInsensitive true mem r label sLabel =
        IsStringEqualsCaseInsensitive false mem r label sLabel) := by
  refine ⟨?_, ?_, ?_, ?_, ?_⟩
  · intro h
    obtain ⟨_, x, hx, hns⟩ := SkipWhitespace_normalised mem s r h
    exact ⟨x, hx, (entryAssertion_iff x).2 hns⟩
  · intro h
    obtain ⟨x, hx, hns⟩ := ConvertStringToFloat_normalised strtod mem s out v r h
    exact ⟨x, hx, (entryAssertion_iff x).2 hns⟩
  · intro checked label sLabel h
    obtain ⟨_, x, hx, hns⟩ :=
      IsStringEqualsCaseInsensitive_normalised checked mem s label sLabel r h
    exact ⟨x, hx, (entryAssertion_iff x).2 hns⟩
  · intro t k hk
    have h := SkipWhitespace_cstr t k hk
    obtain ⟨_, x, hx, hns⟩ := SkipWhitespace_normalised (cstr t) k _ h
    exact ⟨_, x, h, hx, (entryAssertion_iff x).2 hns⟩
  · rintro ⟨x, hx, ha⟩ label sLabel
    exact IsStringEqualsCaseInsensitive_checked_eq mem r x hx ha label sLabel

/-- Instance of C15: in `"7  rmse x"` the one-digit conversion returns the
pointer 3, the checked comparison with `"RMSE"` from there returns the pointer
8, and both designate bytes that pass the entry assertion. -/
theorem returned_pointer_normalised_witness :
    ConvertStringToFloat oneDigit (cstr [55, 32, 32, 114, 109, 115, 101, 32, 120]) 0 0 =
        .ok (some 3, 7) ∧
      (∃ x, (cstr [55, 32, 32, 114, 109, 115, 101, 32, 120])[3]? = some x ∧ EntryAssertion x) ∧
      IsStringEqualsCaseInsensitive true (cstr [55, 32, 32, 114, 109, 115, 101, 32, 120]) 3
        (cstr [82, 77, 83, 69]) 0 = .ok (some 8) ∧
      (∃ x, (cstr [55, 32, 32, 114, 109, 115, 101, 32, 120])[8]? = some x ∧ EntryAssertion x) :=
  ⟨by decide,
    (returned_pointer_normalised oneDigit (cstr [55, 32, 32, 114, 109, 115, 101, 32, 120])
      0 3 0 7).2.1 (by decide),
    by decide,
    (returned_pointer_normalised oneDigit (cstr [55, 32, 32, 114, 109, 115, 101, 32, 120])
      3 8 0 7).2.2.1 true (cstr [82, 77, 83, 69]) 0 (by decide)⟩

/-! ## Leading white space -/

/-- What `IsStringEqualsCaseInsensitive` returns at a pointer `k` into the input
when the entry assertion passes there or is not checked. -/
theorem IsStringEqualsCaseInsensitive_cstr_at (checked : Bool) (t label : List Int) (k : Nat)
    (hk : k ≤ t.length) (hl : NulFree label) (ha : AssertionPasses checked (t.drop k)) :
    IsStringEqualsCaseInsensitive checked (cstr t) k (cstr label) 0 =
      if LabelMatches (t.drop k) label then
        .ok (some (k + label.length + (leadingSpace ((t.drop k).drop label.length)).length))
      else .ok none := by
  rw [IsStringEqualsCaseInsensitive_entry checked t label k 0 hk (Nat.zero_le _)]
  have hna : ¬ (checked = true ∧ ¬ EntryAssertion (firstByte (List.drop k t))) := by
    rintro ⟨hc, hn⟩
    exact hn (ha hc)
  rw [if_neg hna]
  simp only [List.drop_zero]
  rw [compareView_cstr label (t.drop k) k hl]
  by_cases hm : LabelMatches (t.drop k) label
  · rw [if_pos hm, if_pos hm, trailView_cstr]
  · rw [if_neg hm, if_neg hm]

theorem IsStringEqualsForgiving_cstr_at (checked : Bool) (t label : List Int) (k : Nat)
    (hk : k ≤ t.length) (hi : NulFree t) (hl : NulFree label)
    (ha : AssertionPasses checked (t.drop k)) :
    IsStringEqualsForgiving checked (cstr t) k (cstr label) 0 =
      .ok (decide (LabelMatches (t.drop k) label ∧
        ∀ c ∈ (t.drop k).drop label.length, IsSpace c)) := by
  rw [IsStringEqualsForgiving_eq, IsStringEqualsCaseInsensitive_cstr_at checked t label k hk hl ha]
  by_cases hm : LabelMatches (t.drop k) label
  · rw [if_pos hm]
    have hkl : k + label.length ≤ t.length := by
      have := hm.1
      simp only [List.length_drop] at this
      omega
    have h := terminatorAt_cstr t (k + label.length) hkl hi
    show terminatorAt _ _ = _
    simp only [List.drop_drop]
    rw [h]
    simp [hm]
  · rw [if_neg hm]
    simp [hm]

theorem foldCase_space_ne {c l : Int} (hc : IsSpace c) (hl : ¬ IsSpace l) :
    foldCase c ≠ foldCase l := by
  unfold IsSpace at hc hl
  unfold foldCase
  split <;> split <;> omega

theorem entryAssertion_zero : EntryAssertion 0 := by decide

/-- C16: leading white space is accepted when the caller skips it first.  For a
label `L` that is empty or does not begin with white space, and the input
`w1 ++ variant ++ w2` with `w1`, `w2` white space and `variant` a case variant
of `L`, `SkipWhitespace` returns a pointer to a byte that passes the entry
assertion, and `IsStringEqualsForgiving` from that pointer returns true in
either build.  Applied to the input itself, with `L` and `w1` not empty,
`IsStringEqualsForgiving` returns false (and the build that checks assertions
stops at the entry assertion); `" rmse"` against `"rmse"` is such an input. -/
theorem IsStringEqualsForgiving_after_skip (checked : Bool) (label variant w1 w2 : List Int)
    (hl : NulFree label) (hv : CaseVariant variant label) (h1 : ∀ c ∈ w1, IsSpace c)
    (h2 : ∀ c ∈ w2, IsSpace c) (hb : ∀ c ∈ label.head?, ¬ IsSpace c) :
    (∃ r x, SkipWhitespace (cstr (w1 ++ variant ++ w2)) 0 = .ok r ∧
      (cstr (w1 ++ variant ++ w2))[r]? = some x ∧ EntryAssertion x ∧
      IsStringEqualsForgiving checked (cstr (w1 ++ variant ++ w2)) r (cstr label) 0 = .ok true) ∧
    (label ≠ [] → w1 ≠ [] →
      IsStringEqualsForgiving false (cstr (w1 ++ variant ++ w2)) 0 (cstr label) 0 = .ok false ∧
      IsStringEqualsForgiving true (cstr (w1 ++ variant ++ w2)) 0 (cstr label) 0 =
        .fault .assertion) ∧
    (∃ a : List Int, (∀ c ∈ a, IsSpace c) ∧ a ≠ [] ∧
      IsStringEqualsForgiving false (cstr (a ++ [114, 109, 115, 101] ++ [])) 0
        (cstr [114, 109, 115, 101]) 0 = .ok false) := by
  have hvn : NulFree variant := nulFree_of_caseVariant hv hl
  have hi : NulFree (w1 ++ variant ++ w2) :=
    nulFree_append (nulFree_append (nulFree_of_space h1) hvn) (nulFree_of_space h2)
  refine ⟨?_, ?_, ⟨[32], by decide, by decide, by decide⟩⟩
  · cases hv with
    | nil =>
      have hall : ∀ c ∈ w1 ++ [] ++ w2, IsSpace c := by
        intro c hc
        simp only [List.append_nil, List.mem_append] at hc
        rcases hc with h | h
        · exact h1 c h
        · exact h2 c h
      have hskip := SkipWhitespace_cstr (w1 ++ [] ++ w2) 0 (Nat.zero_le _)
      simp only [List.drop_zero, Nat.zero_add, leadingSpace_eq_self hall] at hskip
      refine ⟨(w1 ++ [] ++ w2).length, 0, hskip, ?_, entryAssertion_zero, ?_⟩
      · unfold cstr
        rw [List.getElem?_append_right (le_refl _)]
        simp
      · have ha : AssertionPasses checked ((w1 ++ [] ++ w2).drop (w1 ++ [] ++ w2).length) := by
          intro _
          simp only [List.drop_length]
          exact entryAssertion_zero
        rw [IsStringEqualsForgiving_cstr_at checked _ [] _ (le_refl _) hi hl ha]
        simp [LabelMatches]
    | @cons v l vs ls hvl hrest =>
      have hls : ¬ IsSpace l := hb l (by simp)
      have hvs : ¬ IsSpace v := fun h => hls ((caseFlip_isSpace hvl).1 h)
      have hlead : leadingSpace (w1 ++ (v :: vs ++ w2)) = w1 :=
        leadingSpace_append w1 (v :: vs ++ w2) h1 (by simpa using hvs)
      have hassoc : w1 ++ v :: vs ++ w2 = w1 ++ (v :: vs ++ w2) := by simp
      have hskip := SkipWhitespace_cstr (w1 ++ v :: vs ++ w2) 0 (Nat.zero_le _)
      simp only [List.drop_zero, Nat.zero_add] at hskip
      rw [hassoc, hlead] at hskip
      have hdrop : (w1 ++ (v :: vs ++ w2)).drop w1.length = v :: vs ++ w2 :=
        List.drop_left' rfl
      rw [hassoc]
      refine ⟨w1.length, v, hskip, ?_, (entryAssertion_iff v).2 hvs, ?_⟩
      · have hc : cstr (w1 ++ (v :: vs ++ w2)) = w1 ++ (v :: cstr (vs ++ w2)) := by
          simp [cstr]
        rw [hc, List.getElem?_append_right (le_refl _)]
        simp
      · have ha : AssertionPasses checked ((w1 ++ (v :: vs ++ w2)).drop w1.length) := by
          intro _
          rw [hdrop]
          exact (entryAssertion_iff v).2 hvs
        rw [IsStringEqualsForgiving_cstr_at checked _ (l :: ls) w1.length (by simp)
          (hassoc ▸ hi) hl ha, hdrop]
        have hv2 : CaseVariant (v :: vs) (l :: ls) := List.Forall₂.cons hvl hrest
        have hm : LabelMatches (v :: vs ++ w2) (l :: ls) :=
          labelMatches_append (caseVariant_length hv2) (caseVariant_map hv2)
        have hd : (v :: vs ++ w2).drop (l :: ls).length = w2 :=
          List.drop_left' (caseVariant_length hv2)
        have : LabelMatches (v :: vs ++ w2) (l :: ls) ∧
            ∀ c ∈ (v :: vs ++ w2).drop (l :: ls).length, IsSpace c :=
          ⟨hm, by rw [hd]; exact h2⟩
        exact congrArg Result.ok (decide_eq_true this)
  · intro hne hw
    cases label with
    | nil => exact absurd rfl hne
    | cons l ls =>
      cases w1 with
      | nil => exact absurd rfl hw
      | cons c ws =>
        have hcs : IsSpace c := h1 c (List.mem_cons_self _ _)
        have hls : ¬ IsSpace l := hb l (by simp)
        constructor
        · have ha : AssertionPasses false (c :: ws ++ variant ++ w2) := by
            intro h
            cases h
          rw [IsStringEqualsForgiving_cstr false _ (l :: ls) hi hl ha]
          have hm : ¬ LabelMatches (c :: ws ++ variant ++ w2) (l :: ls) := by
            rintro ⟨_, hmap⟩
            simp only [List.cons_append, List.length_cons, List.take_succ_cons, List.map_cons,
              List.cons.injEq] at hmap
            exact foldCase_space_ne hcs hls hmap.1
          have hnot : ¬ (LabelMatches (c :: ws ++ variant ++ w2) (l :: ls) ∧
              ∀ x ∈ (c :: ws ++ variant ++ w2).drop (l :: ls).length, IsSpace x) :=
            fun h => hm h.1
          exact congrArg Result.ok (decide_eq_false hnot)
        · apply IsStringEqualsForgiving_assert
          intro hea
          exact (entryAssertion_iff c).1 hea hcs

/-- Witness of C16: `" \tRmse  "` against `"rMSE"`: skipped first it is a
forgiving match in the build that checks assertions; applied directly it is
none. -/
theorem IsStringEqualsForgiving_after_skip_witness :
    NulFree [114, 77, 83, 69] ∧ CaseVariant [82, 109, 115, 101] [114, 77, 83, 69] ∧
      (∀ c ∈ [32, 9], IsSpace c) ∧ (∀ c ∈ [32, 32], IsSpace c) ∧
      (∀ c ∈ [114, 77, 83, 69].head?, ¬ IsSpace c) ∧
      SkipWhitespace (cstr ([32, 9] ++ [82, 109, 115, 101] ++ [32, 32])) 0 = .ok 2 ∧
      IsStringEqualsForgiving true (cstr ([32, 9] ++ [82, 109, 115, 101] ++ [32, 32])) 2
        (cstr [114, 77, 83, 69]) 0 = .ok true ∧
      IsStringEqualsForgiving false (cstr ([32, 9] ++ [82, 109, 115, 101] ++ [32, 32])) 0
        (cstr [114, 77, 83, 69]) 0 = .ok false :=
  have hv : CaseVariant [82, 109, 115, 101] [114, 77, 83, 69] := by
    unfold CaseVariant; decide
  ⟨by decide, hv, by decide, by decide, by decide, by decide, by decide,
    ((IsStringEqualsForgiving_after_skip true [114, 77, 83, 69] [82, 109, 115, 101] [32, 9]
      [32, 32] (by decide) hv (by decide) (by decide) (by decide)).2.1
        (by decide) (by decide)).1⟩

/-! ## Candidate scanning -/

theorem scanCandidates_skip {κ : Type} (text : List Int) (c : CandidateDescriptor κ)
    (rest : List (CandidateDescriptor κ))
    (h : c.construct text = .threw .SkipRegistrationException) :
    scanCandidates text (c :: rest) =
      ((scanCandidates text rest).1, c.registrationName :: (scanCandidates text rest).2) := by
  simp only [scanCandidates, h]

theorem scanCandidates_matched {κ : Type} (text : List Int) (c : CandidateDescriptor κ)
    (rest : List (CandidateDescriptor κ)) (x : κ) (h : c.construct text = .matched x) :
    scanCandidates text (c :: rest) = (.resolved x, [c.registrationName]) := by
  simp only [scanCandidates, h]

theorem scanCandidates_threw {κ : Type} (text : List Int) (c : CandidateDescriptor κ)
    (rest : List (CandidateDescriptor κ)) (e : RegistrationException)
    (h : c.construct text = .threw e) (hne : e ≠ .SkipRegistrationException) :
    scanCandidates text (c :: rest) = (.failed e c.registrationName, [c.registrationName]) := by
  cases e <;> first | exact absurd rfl hne | simp only [scanCandidates, h]

theorem scanCandidates_all_skip {κ : Type} (text : List Int) (cs : List (CandidateDescriptor κ))
    (h : ∀ p ∈ cs, p.construct text = .threw .SkipRegistrationException) :
    scanCandidates text cs = (.noMatchingRegistration, cs.map (fun p => p.registrationName)) := by
  induction cs with
  | nil => rfl
  | cons c rest ih =>
    rw [scanCandidates_skip text c rest (h c (List.mem_cons_self _ _)),
      ih (fun p hp => h p (List.mem_cons_of_mem _ hp))]
    rfl

theorem scanCandidates_append {κ : Type} (text : List Int) (pre rest : List (CandidateDescriptor κ))
    (h : ∀ p ∈ pre, p.construct text = .threw .SkipRegistrationException) :
    scanCandidates text (pre ++ rest) =
      ((scanCandidates text rest).1,
        pre.map (fun p => p.registrationName) ++ (scanCandidates text rest).2) := by
  induction pre with
  | nil => rfl
  | cons c cs ih =>
    rw [List.cons_append, scanCandidates_skip text c _ (h c (List.mem_cons_self _ _)),
      ih (fun p hp => h p (List.mem_cons_of_mem _ hp))]
    rfl

/-- C11: scanning stops at the first signal that is not `SkipRegistration`.  When
the candidates before `c` all throw `SkipRegistrationException` and `c` does
anything else, the scanner invokes the constructors of those candidates and of
`c` and of no candidate behind `c`, and hands on what `c` did: its component,
or its exception with the name of `c`; the candidates behind `c` do not
matter.  When every candidate throws `SkipRegistrationException` each is
invoked and the outcome is "no matching registration", which is neither a
component nor a failure. -/
theorem scanCandidates_stops {κ : Type} (text : List Int)
    (pre post : List (CandidateDescriptor κ)) (c : CandidateDescriptor κ)
    (hpre : ∀ p ∈ pre, p.construct text = .threw .SkipRegistrationException)
    (hc : c.construct text ≠ .threw .SkipRegistrationException) :
    (scanCandidates text (pre ++ c :: post)).2 =
      (pre ++ [c]).map (fun p => p.registrationName) ∧
    (∀ x, c.construct text = .matched x →
      (scanCandidates text (pre ++ c :: post)).1 = .resolved x) ∧
    (∀ e, c.construct text = .threw e →
      (scanCandidates text (pre ++ c :: post)).1 = .failed e c.registrationName) ∧
    (∀ other, scanCandidates text (pre ++ c :: other) = scanCandidates text (pre ++ c :: post)) ∧
    (∀ cs : List (CandidateDescriptor κ),
      (∀ p ∈ cs, p.construct text = .threw .SkipRegistrationException) →
      scanCandidates text cs =
        (.noMatchingRegistration, cs.map (fun p => p.registrationName))) ∧
    (∀ (x : κ) (e : RegistrationException) (n : List Int),
      ScanOutcome.noMatchingRegistration ≠ ScanOutcome.resolved x ∧
      ScanOutcome.noMatchingRegistration ≠ ScanOutcome.failed (κ := κ) e n) := by
  have hone : ∀ other, scanCandidates text (c :: other) = scanCandidates text (c :: post) := by
    intro other
    cases hct : c.construct text with
    | matched x =>
      rw [scanCandidates_matched text c other x hct, scanCandidates_matched text c post x hct]
    | threw e =>
      have hne : e ≠ .SkipRegistrationException := by
        intro h
        rw [h] at hct
        exact hc hct
      rw [scanCandidates_threw text c other e hct hne, scanCandidates_threw text c post e hct hne]
  have hlog : (scanCandidates text (c :: post)).2 = [c.registrationName] := by
    cases hct : c.construct text with
    | matched x => rw [scanCandidates_matched text c post x hct]
    | threw e =>
      have hne : e ≠ .SkipRegistrationException := by
        intro h
        rw [h] at hct
        exact hc hct
      rw [scanCandidates_threw text c post e hct hne]
  refine ⟨?_, ?_, ?_, ?_, fun cs h => scanCandidates_all_skip text cs h, ?_⟩
  · rw [scanCandidates_append text pre _ hpre, hlog]
    simp
  · intro x hx
    rw [scanCandidates_append text pre _ hpre, scanCandidates_matched text c post x hx]
  · intro e he
    have hne : e ≠ .SkipRegistrationException := by
      intro h
      rw [h] at he
      exact hc he
    rw [scanCandidates_append text pre _ hpre, scanCandidates_threw text c post e he hne]
  · intro other
    rw [scanCandidates_append text pre _ hpre, scanCandidates_append text pre _ hpre, hone other]
  · intro x e n
    exact ⟨fun h => ScanOutcome.noConfusion h, fun h => ScanOutcome.noConfusion h⟩

/-- Witness of C11: the text `"LogLoss"` with the candidates `rmse`, `logloss`
(which throws `ParameterUnknownException`) and a second `LOGLOSS` (which
would match): the outcome is the failure of `logloss`, and the third
constructor is not invoked. -/
theorem scanCandidates_stops_witness :
    (∀ p ∈ [namedCandidate [114, 109, 115, 101] (.matched 1)],
        p.construct [76, 111, 103, 76, 111, 115, 115] = .threw .SkipRegistrationException) ∧
      (namedCandidate [108, 111, 103, 108, 111, 115, 115]
          (.threw .ParameterUnknownException)).construct [76, 111, 103, 76, 111, 115, 115] ≠
        .threw .SkipRegistrationException ∧
      (namedCandidate [76, 79, 71, 76, 79, 83, 83] (.matched 2)).construct
          [76, 111, 103, 76, 111, 115, 115] = .matched 2 ∧
      scanCandidates [76, 111, 103, 76, 111, 115, 115]
          ([namedCandidate [114, 109, 115, 101] (.matched 1)] ++
            namedCandidate [108, 111, 103, 108, 111, 115, 115]
              (.threw .ParameterUnknownException) ::
            [namedCandidate [76, 79, 71, 76, 79, 83, 83] (.matched 2)]) =
        (.failed .ParameterUnknownException [108, 111, 103, 108, 111, 115, 115],
          [[114, 109, 115, 101], [108, 111, 103, 108, 111, 115, 115]]) :=
  have hpre : ∀ p ∈ [namedCandidate [114, 109, 115, 101] (.matched 1)],
      p.construct [76, 111, 103, 76, 111, 115, 115] = .threw .SkipRegistrationException := by
    intro p hp
    rw [List.mem_singleton] at hp
    subst hp
    decide
  have hc : (namedCandidate [108, 111, 103, 108, 111, 115, 115]
      (.threw .ParameterUnknownException)).construct [76, 111, 103, 76, 111, 115, 115] ≠
      .threw .SkipRegistrationException := by decide
  have h := scanCandidates_stops [76, 111, 103, 76, 111, 115, 115]
    [namedCandidate [114, 109, 115, 101] (.matched 1)]
    [namedCandidate [76, 79, 71, 76, 79, 83, 83] (.matched 2)]
    (namedCandidate [108, 111, 103, 108, 111, 115, 115] (.threw .ParameterUnknownException))
    hpre hc
  ⟨hpre, hc, by decide, Prod.ext (h.2.2.1 .ParameterUnknownException (by decide)) h.1⟩

/-! ## The signal taxonomy -/

/-- C12: the registration signals are nine kinds, pairwise distinct.  The header
declares nine exception classes and no other, distinct from one another; the
table of §4.2 has nine signals; class and signal correspond one to one, name
by name, with `RegistrationConstructorException` for `ConstructorFailure`;
and `SkipRegistration` is the one soft signal, the other eight being
terminal. -/
theorem registration_taxonomy :
    Fintype.card RegistrationException = 9 ∧ Fintype.card Signal = 9 ∧
    (∀ e : RegistrationException,
      e ∈ [RegistrationException.SkipRegistrationException, .ParameterUnknownException,
        .ParameterValueMalformedException, .ParameterValueOutOfRangeException,
        .ParameterMismatchWithConfigException, .DuplicateParamNameException,
        .IllegalParamNameException, .IllegalRegistrationNameException,
        .RegistrationConstructorException]) ∧
    [RegistrationException.SkipRegistrationException, .ParameterUnknownException,
      .ParameterValueMalformedException, .ParameterValueOutOfRangeException,
      .ParameterMismatchWithConfigException, .DuplicateParamNameException,
      .IllegalParamNameException, .IllegalRegistrationNameException,
      .RegistrationConstructorException].Nodup ∧
    [RegistrationException.SkipRegistrationException, .ParameterUnknownException,
      .ParameterValueMalformedException, .ParameterValueOutOfRangeException,
      .ParameterMismatchWithConfigException, .DuplicateParamNameException,
      .IllegalParamNameException, .IllegalRegistrationNameException,
      .RegistrationConstructorException].map RegistrationException.signal =
      [Signal.SkipRegistration, .ParameterUnknown, .ParameterValueMalformed,
        .ParameterValueOutOfRange, .ParameterMismatchWithConfig, .DuplicateParamName,
        .IllegalParamName, .IllegalRegistrationName, .ConstructorFailure] ∧
    Function.Bijective RegistrationException.signal ∧
    (∀ e : RegistrationException,
      e.signal.isSoft = true ↔ e = .SkipRegistrationException) ∧
    (Finset.univ.filter (fun k : Signal => k.isSoft = true)).card = 1 ∧
    (Finset.univ.filter (fun k : Signal => k.isSoft = false)).card = 8 := by
  refine ⟨by decide, by decide, ?_, by decide, rfl, ⟨?_, ?_⟩, ?_, by decide, by decide⟩
  · intro e
    cases e <;> decide
  · intro a b h
    cases a <;> cases b <;> first | rfl | exact Signal.noConfusion h
  · intro k
    cases k
    · exact ⟨.SkipRegistrationException, rfl⟩
    · exact ⟨.ParameterUnknownException, rfl⟩
    · exact ⟨.ParameterValueMalformedException, rfl⟩
    · exact ⟨.ParameterValueOutOfRangeException, rfl⟩
    · exact ⟨.ParameterMismatchWithConfigException, rfl⟩
    · exact ⟨.DuplicateParamNameException, rfl⟩
    · exact ⟨.IllegalParamNameException, rfl⟩
    · exact ⟨.IllegalRegistrationNameException, rfl⟩
    · exact ⟨.RegistrationConstructorException, rfl⟩
  · intro e
    cases e <;> decide

end EbmCommon
